import Mathlib

/-!
# Verification of the xcpcio ranking core (`packages/libs/core/src/rank.ts`)

Shallow embedding of the scoreboard engine: `RankOptions`, `Rank.buildRank`,
`Rank.getSubmissions` (from `rank.ts`) and the award construction of
`createContest` (from `contest.ts`).

The classes `Team`, `Submission`, `Problem`, `TeamProblemStatistics` and
`RankStatistics` are declared in files not present in this snapshot; their
fields and behaviour are modelled from the specification where needed and
each such definition is marked `Modelled from the spec`.
-/

namespace XCPCIO

/-- Modelled from the spec (submission.ts missing): the verdict of a
submission is one fixed tag from a closed set — accepted, rejected, pending,
or an ignorable outcome such as compile error. -/
inductive SubmissionStatus
  | accepted
  | rejected
  | pending
  | compileError
deriving DecidableEq, Repr

/-- Modelled from the spec (submission.ts missing): one judged attempt;
carries team id, problem id, timestamp, verdict, and an explicit ignore
flag.  The submission id is modelled as a natural number. -/
structure Submission where
  id : Nat
  teamId : String
  problemId : String
  timestamp : Nat
  status : SubmissionStatus
  isIgnore : Bool
deriving DecidableEq, Repr

def Submission.isAccepted (s : Submission) : Bool :=
  s.status = SubmissionStatus.accepted

def Submission.isRejected (s : Submission) : Bool :=
  s.status = SubmissionStatus.rejected

def Submission.isPending (s : Submission) : Bool :=
  s.status = SubmissionStatus.pending

/-- Modelled from the spec (submission.ts missing): a verdict excluded from
penalty accounting, e.g. compile error. -/
def Submission.isNotCalculatedPenaltyStatus (s : Submission) : Bool :=
  s.status = SubmissionStatus.compileError

/-- Modelled from the spec (submission.ts missing): the canonical submission
order used by `Submission.compare` — ascending timestamp, ties broken by the
stable secondary key, the submission id. -/
def subLE (a b : Submission) : Prop :=
  a.timestamp < b.timestamp ∨ (a.timestamp = b.timestamp ∧ a.id ≤ b.id)

instance : DecidableRel subLE := fun a b => by
  unfold subLE; infer_instance

instance : IsTotal Submission subLE where
  total a b := by
    unfold subLE
    rcases Nat.lt_trichotomy a.timestamp b.timestamp with h | h | h
    · exact Or.inl (Or.inl h)
    · rcases Nat.le_total a.id b.id with h2 | h2
      · exact Or.inl (Or.inr ⟨h, h2⟩)
      · exact Or.inr (Or.inr ⟨h.symm, h2⟩)
    · exact Or.inr (Or.inl h)

instance : IsTrans Submission subLE where
  trans a b c hab hbc := by
    unfold subLE at *
    rcases hab with h1 | ⟨h1, h1'⟩ <;> rcases hbc with h2 | ⟨h2, h2'⟩
    · exact Or.inl (h1.trans h2)
    · exact Or.inl (h2 ▸ h1)
    · exact Or.inl (h1 ▸ h2)
    · exact Or.inr ⟨h1.trans h2, h1'.trans h2'⟩

/-- Modelled from the spec (problem.ts missing): per-problem aggregate
statistics — submitted/accepted/rejected/pending/ignore counters, attempted
counter, first-solve submission list, last-solve submission list. -/
structure ProblemStatistics where
  submittedNum : Nat
  acceptedNum : Nat
  rejectedNum : Nat
  pendingNum : Nat
  ignoreNum : Nat
  attemptedNum : Nat
  firstSolveSubmissions : List Submission
  lastSolveSubmissions : List Submission
deriving DecidableEq, Repr

/-- `ProblemStatistics.reset`: all counters zero, both lists empty. -/
def emptyProblemStatistics : ProblemStatistics :=
  ⟨0, 0, 0, 0, 0, 0, [], []⟩

/-- Modelled from the spec (problem.ts missing): a contest problem with an
id and a mutable statistics record. -/
structure Problem where
  id : String
  statistics : ProblemStatistics
deriving DecidableEq, Repr

/-- Modelled from the spec (problem.ts missing): per-team per-problem
statistics, reset before each rebuild. -/
structure TeamProblemStatistics where
  problemId : String
  contestPenalty : Nat
  submissions : List Submission
  isSolved : Bool
  isFirstSolved : Bool
  isSubmitted : Bool
  solvedTimestamp : Nat
  lastSubmitTimestamp : Nat
  totalCount : Nat
  failedCount : Nat
  pendingCount : Nat
  ignoreCount : Nat
deriving DecidableEq, Repr

def emptyTPS : TeamProblemStatistics :=
  ⟨"", 0, [], false, false, false, 0, 0, 0, 0, 0, 0⟩

/-- Modelled from the spec (team.ts missing): a contest participant. -/
structure Team where
  id : String
  organization : String
  problemStatistics : List TeamProblemStatistics
  submissions : List Submission
  solvedProblemNum : Nat
  penalty : Nat
  rank : Nat
  organizationRank : Nat
  lastSolvedProblemTimestamp : Nat
deriving DecidableEq, Repr

inductive MedalType
  | gold
  | silver
  | bronze
  | honorable
deriving DecidableEq, Repr

/-- An award: a medal tier with an inclusive rank range (`award.ts`). -/
structure Award where
  medalType : MedalType
  minRank : Nat
  maxRank : Nat
deriving DecidableEq, Repr

/-- One group's medal configuration (`contestJSON.medal[k]`): an optional
count for each of gold, silver, bronze. -/
structure MedalConfig where
  gold : Option Nat
  silver : Option Nat
  bronze : Option Nat
deriving DecidableEq, Repr

/-- One `work(key, medalType)` call of `createContest`: if the tier is
present in the config, emit a block starting at the current rank of the
configured size and advance the rank counter. -/
def awardBlock (rank : Nat) (cnt : Option Nat) (mt : MedalType) :
    List Award × Nat :=
  match cnt with
  | none => ([], rank)
  | some n => ([⟨mt, rank, rank + n - 1⟩], rank + n)

/-- Award construction for one group, translated from `createContest`
(`contest.ts`): `rank` starts at 1; `work` is invoked for gold, silver,
bronze in that order; a trailing honorable tier always runs from the next
free rank to the sentinel `0x3F3F3F3F`. -/
def createAwards (cfg : MedalConfig) : List Award :=
  let gb := awardBlock 1 cfg.gold MedalType.gold
  let sb := awardBlock gb.2 cfg.silver MedalType.silver
  let bb := awardBlock sb.2 cfg.bronze MedalType.bronze
  gb.1 ++ sb.1 ++ bb.1 ++ [⟨MedalType.honorable, bb.2, 0x3F3F3F3F⟩]

/-- Written from the spec's words, for comparison with `createAwards`:
each tier present in the config receives a contiguous block of the
configured size starting right after all preceding present tiers (ranks
start at 1); an absent tier contributes no block and reserves no ranks; a
trailing honorable tier covers the remaining ranks up to the sentinel. -/
def specAwards (cfg : MedalConfig) : List Award :=
  let gN := cfg.gold.getD 0
  let sN := cfg.silver.getD 0
  let bN := cfg.bronze.getD 0
  (match cfg.gold with
    | none => []
    | some n => [⟨MedalType.gold, 1, n⟩]) ++
  (match cfg.silver with
    | none => []
    | some n => [⟨MedalType.silver, gN + 1, gN + n⟩]) ++
  (match cfg.bronze with
    | none => []
    | some n => [⟨MedalType.bronze, gN + sN + 1, gN + sN + n⟩]) ++
  [⟨MedalType.honorable, gN + sN + bN + 1, 0x3F3F3F3F⟩]

/-- The contest configuration fields the ranking engine reads
(`contest.ts`): start/end instants (unix seconds), penalty unit, problem
list, and whether an organization field is declared. -/
structure Contest where
  startTimeUnix : Nat
  endTimeUnix : Nat
  penalty : Nat
  problems : List Problem
  organization : Bool
deriving DecidableEq, Repr

/-- `RankOptions` (`rank.ts`): the timestamp-cutoff filter knobs. -/
structure RankOptions where
  enableFilterSubmissionsByTimestamp : Bool
  width : Nat
  timestamp : Nat
deriving DecidableEq, Repr

def RankOptions.init : RankOptions :=
  ⟨false, 0, 0⟩

/-- `RankOptions.setWidth` (`rank.ts` lines 22-26): the cutoff is
`Math.floor((endTime.unix() - startTime.unix()) * width * 0.0001)`, modelled
as the floor division `(duration * width) / 10000`, and the filter is
enabled. -/
def RankOptions.setWidth (o : RankOptions) (width : Nat) (c : Contest) :
    RankOptions :=
  { o with
    width := width
    timestamp := (c.endTimeUnix - c.startTimeUnix) * width / 10000
    enableFilterSubmissionsByTimestamp := true }

/-- `RankOptions.disableFilterSubmissionByTimestamp` (`rank.ts`). -/
def RankOptions.disableFilterSubmissionByTimestamp (o : RankOptions) :
    RankOptions :=
  { o with enableFilterSubmissionsByTimestamp := false }

/-- The mutable state of a `Rank` instance (`rank.ts`): the contest (whose
problems' statistics are mutated by `buildRank`), the owned team and
submission copies, the histogram and the options. -/
structure RankState where
  contest : Contest
  teams : List Team
  submissions : List Submission
  rankStatistics : List Nat
  options : RankOptions
deriving DecidableEq, Repr

/-- `Rank.getSubmissions` (`rank.ts` lines 202-208): the full owned
sequence, or — when the timestamp filter is enabled — the subsequence with
timestamp ≤ cutoff re-sorted by `Submission.compare`. -/
def getSubmissions (st : RankState) : List Submission :=
  if st.options.enableFilterSubmissionsByTimestamp = false then
    st.submissions
  else
    List.insertionSort subLE
      (st.submissions.filter (fun s => s.timestamp ≤ st.options.timestamp))

/-- `team.problemStatisticsMap.get(problemId)`: lookup of the team's
statistics record for one problem.  After the reset phase the record exists
for every contest problem; the `emptyTPS` default is never reached there. -/
def psLookup (t : Team) (pid : String) : TeamProblemStatistics :=
  (t.problemStatistics.find? (fun ps => ps.problemId == pid)).getD emptyTPS

/-- The list is empty or its last entry's timestamp equals the
submission's. -/
def lastTiesOrEmpty (cur : List Submission) (x : Submission) : Bool :=
  match cur.getLast? with
  | none => true
  | some y => y.timestamp == x.timestamp

/-- The first-solve condition of `rank.ts` lines 118-121: the problem's
first-solve list is empty, or its last entry's timestamp equals the
submission's timestamp. -/
def firstSolveCond (pstats : ProblemStatistics) (s : Submission) : Bool :=
  lastTiesOrEmpty pstats.firstSolveSubmissions s

/-- The updates `rank.ts` lines 93-142 apply to the team's per-problem
statistics record for submission `s`; `pstats` is the problem's aggregate
statistics before this submission is processed. -/
def tpsUpdate (s : Submission) (pstats : ProblemStatistics)
    (ps : TeamProblemStatistics) : TeamProblemStatistics :=
  let ps1 := { ps with submissions := ps.submissions ++ [s] }
  if ps.isSolved then ps1
  else if s.isIgnore || s.isNotCalculatedPenaltyStatus then
    { ps1 with ignoreCount := ps1.ignoreCount + 1 }
  else
    let ps2 := { ps1 with
      isSubmitted := true
      lastSubmitTimestamp := s.timestamp
      totalCount := ps1.totalCount + 1 }
    if s.isAccepted then
      let ps3 := { ps2 with isSolved := true, solvedTimestamp := s.timestamp }
      if firstSolveCond pstats s then { ps3 with isFirstSolved := true } else ps3
    else if s.isRejected then { ps2 with failedCount := ps2.failedCount + 1 }
    else if s.isPending then { ps2 with pendingCount := ps2.pendingCount + 1 }
    else ps2

/-- The updates `rank.ts` lines 94-131 apply to the team record for
submission `s`: append to the team's submission list, update the
per-problem record, and set the last-solved timestamp on a counted
accepted submission on a not-yet-solved problem. -/
def teamUpd (s : Submission) (pstats : ProblemStatistics) (u : Team) : Team :=
  let ps := psLookup u s.problemId
  { u with
    submissions := u.submissions ++ [s]
    problemStatistics := u.problemStatistics.map
      (fun q => if q.problemId == s.problemId then tpsUpdate s pstats q else q)
    lastSolvedProblemTimestamp :=
      if ps.isSolved then u.lastSolvedProblemTimestamp
      else if s.isIgnore || s.isNotCalculatedPenaltyStatus then
        u.lastSolvedProblemTimestamp
      else if s.isAccepted then s.timestamp
      else u.lastSolvedProblemTimestamp }

/-- The updates `rank.ts` lines 95-142 apply to the problem's aggregate
statistics for submission `s`; `ps` is the submitting team's per-problem
record before this submission is processed. -/
def probUpd (s : Submission) (ps : TeamProblemStatistics) (q : Problem) :
    Problem :=
  let st0 := q.statistics
  let st1 := { st0 with submittedNum := st0.submittedNum + 1 }
  if ps.isSolved then { q with statistics := st1 }
  else if s.isIgnore || s.isNotCalculatedPenaltyStatus then
    { q with statistics := { st1 with ignoreNum := st1.ignoreNum + 1 } }
  else if s.isAccepted then
    { q with statistics :=
      { st1 with
        acceptedNum := st1.acceptedNum + 1
        attemptedNum := st1.attemptedNum + ps.failedCount + 1
        firstSolveSubmissions :=
          if firstSolveCond st0 s then
            st1.firstSolveSubmissions ++ [s]
          else
            st1.firstSolveSubmissions
        lastSolveSubmissions := [s] } }
  else if s.isRejected then
    { q with statistics := { st1 with rejectedNum := st1.rejectedNum + 1 } }
  else if s.isPending then
    { q with statistics := { st1 with pendingNum := st1.pendingNum + 1 } }
  else { q with statistics := st1 }

/-- One iteration of the replay loop (`rank.ts` lines 80-143): look up team
and problem by id; if either is missing, leave the state unchanged;
otherwise apply the team and problem updates for this submission. -/
def stepSub (st : RankState) (s : Submission) : RankState :=
  match st.teams.find? (fun t => t.id == s.teamId),
        st.contest.problems.find? (fun p => p.id == s.problemId) with
  | some team, some problem =>
    let ps := psLookup team s.problemId
    { st with
      teams := st.teams.map
        (fun u => if u.id == s.teamId then teamUpd s problem.statistics u else u)
      contest := { st.contest with
        problems := st.contest.problems.map
          (fun q => if q.id == s.problemId then probUpd s ps q else q) } }
  | _, _ => st

/-- The reset phase for one team (`rank.ts` lines 62-73 plus `Team.reset`,
the latter modelled from the spec, team.ts missing): identity and
organization are kept, a fresh per-problem statistics record is created for
every contest problem, and all accumulated per-build state is cleared. -/
def resetTeam (problems : List Problem) (penalty : Nat) (t : Team) : Team :=
  { id := t.id
    organization := t.organization
    problemStatistics := problems.map
      (fun p => { emptyTPS with problemId := p.id, contestPenalty := penalty })
    submissions := []
    solvedProblemNum := 0
    penalty := 0
    rank := 0
    organizationRank := 0
    lastSolvedProblemTimestamp := 0 }

/-- `p.statistics.reset()` (`rank.ts` lines 76-78). -/
def resetProblem (p : Problem) : Problem :=
  { p with statistics := emptyProblemStatistics }

/-- Modelled from the spec (team.ts missing): `Team.calcSolvedData` — the
solved-problem count and the total penalty, where each solved problem
contributes its solving timestamp plus the penalty unit times the failed
attempts before the solve, and unsolved problems contribute zero. -/
def calcSolvedData (t : Team) : Team :=
  { t with
    solvedProblemNum := (t.problemStatistics.filter (fun ps => ps.isSolved)).length
    penalty := (t.problemStatistics.filter (fun ps => ps.isSolved)).foldl
      (fun acc ps => acc + ps.solvedTimestamp + ps.contestPenalty * ps.failedCount) 0 }

/-- Modelled from the spec (team.ts missing): `Team.compare` — more solved
problems ranks better, then lower penalty; the remaining tie-break is left
as equivalence (the sort is stable). -/
def teamLE (a b : Team) : Prop :=
  b.solvedProblemNum < a.solvedProblemNum ∨
    (a.solvedProblemNum = b.solvedProblemNum ∧ a.penalty ≤ b.penalty)

instance : DecidableRel teamLE := fun a b => by
  unfold teamLE; infer_instance

instance : IsTotal Team teamLE where
  total a b := by
    unfold teamLE
    rcases Nat.lt_trichotomy a.solvedProblemNum b.solvedProblemNum with h | h | h
    · exact Or.inr (Or.inl h)
    · rcases Nat.le_total a.penalty b.penalty with h2 | h2
      · exact Or.inl (Or.inr ⟨h, h2⟩)
      · exact Or.inr (Or.inr ⟨h.symm, h2⟩)
    · exact Or.inl (Or.inl h)

instance : IsTrans Team teamLE where
  trans a b c hab hbc := by
    unfold teamLE at *
    rcases hab with h1 | ⟨h1, h1'⟩ <;> rcases hbc with h2 | ⟨h2, h2'⟩
    · exact Or.inl (h2.trans h1)
    · exact Or.inl (h2 ▸ h1)
    · exact Or.inl (h1 ▸ h2)
    · exact Or.inr ⟨h1.trans h2, h1'.trans h2'⟩

/-- Modelled from the spec (team.ts missing): `Team.isEqualRank` — the
ranking keys (solved count, penalty) compare exactly equal. -/
def isEqualRank (a b : Team) : Bool :=
  a.solvedProblemNum == b.solvedProblemNum && a.penalty == b.penalty

/-- One iteration of the rank-assignment walk (`rank.ts` lines 151-160):
assign the running counter, then inherit the predecessor's rank when the
ranking keys are exactly equal. -/
def assignStep (pos : Nat) (prev : Option Team) (t : Team) : Team :=
  let t1 := { t with rank := pos }
  match prev with
  | none => t1
  | some pt => if isEqualRank t1 pt then { t1 with rank := pt.rank } else t1

/-- The rank-assignment walk (`rank.ts` lines 148-162): `pos` is the
running counter (`rank++`), `prev` the previously assigned team. -/
def assignRanksGo : Nat → Option Team → List Team → List Team
  | _, _, [] => []
  | pos, prev, t :: rest =>
    let t2 := assignStep pos prev t
    t2 :: assignRanksGo (pos + 1) (some t2) rest

def assignRanks (l : List Team) : List Team :=
  assignRanksGo 1 none l

/-- The organization-rank walk (`rank.ts` lines 164-187): teams from an
already-seen organization are skipped without advancing the counter or the
predecessor. -/
def assignOrgRanksGo : Nat → Option Team → List String → List Team → List Team
  | _, _, _, [] => []
  | pos, prev, seen, t :: rest =>
    if t.organization ∈ seen then
      t :: assignOrgRanksGo pos prev seen rest
    else
      let t1 := { t with organizationRank := pos }
      let t2 := match prev with
        | none => t1
        | some pt =>
          if isEqualRank t1 pt then
            { t1 with organizationRank := pt.organizationRank }
          else t1
      t2 :: assignOrgRanksGo (pos + 1) (some t2) (t.organization :: seen) rest

def assignOrgRanks (l : List Team) : List Team :=
  assignOrgRanksGo 1 none [] l

/-- The histogram rebuild (`rank.ts` lines 190-197): an array of size
(problem count + 1), incrementing the bucket at each team's solved count. -/
def buildHistogram (n : Nat) (teams : List Team) : List Nat :=
  teams.foldl
    (fun h t => h.set t.solvedProblemNum (h.getD t.solvedProblemNum 0 + 1))
    (List.replicate (n + 1) 0)

/-- The reset phase of `buildRank` (`rank.ts` lines 62-78): every team gets
fresh per-problem statistics, every problem's aggregate statistics are
reset. -/
def resetState (st : RankState) : RankState :=
  { st with
    teams := st.teams.map (resetTeam st.contest.problems st.contest.penalty)
    contest := { st.contest with
      problems := st.contest.problems.map resetProblem } }

/-- `Rank.buildRank` (`rank.ts` lines 60-200): reset, replay the visible
submissions, aggregate per team, sort, assign ranks (and organization ranks
when the contest declares an organization field), rebuild the histogram.
The function returns the updated instance. -/
def buildRank (st : RankState) : RankState :=
  let st1 := resetState st
  let st2 := (getSubmissions st1).foldl stepSub st1
  let teams2 := st2.teams.map calcSolvedData
  let teams3 := List.insertionSort teamLE teams2
  let teams4 := assignRanks teams3
  let teams5 :=
    if st.contest.organization = true then assignOrgRanks teams4 else teams4
  { st2 with
    teams := teams5
    rankStatistics := buildHistogram st.contest.problems.length teams5 }

/-! ### Concrete example data (used by scenario conjuncts and witnesses) -/

/-- An example contest: 18000 s duration, 1200 s penalty, problems A and B,
organization ranking enabled. -/
def exContest : Contest :=
  ⟨0, 18000, 1200, [⟨"A", emptyProblemStatistics⟩, ⟨"B", emptyProblemStatistics⟩], true⟩

def exTeams : List Team :=
  [⟨"t1", "orgX", [], [], 0, 0, 0, 0, 0⟩,
   ⟨"t2", "orgY", [], [], 0, 0, 0, 0, 0⟩,
   ⟨"t3", "orgZ", [], [], 0, 0, 0, 0, 0⟩]

/-- t1: reject then accept on A (penalty 3000 + 1200); t2: accept on A at
4200 (same key as t1); t3: accepts on A and B; plus one submission from an
unknown team and one on an unknown problem. -/
def exSubs : List Submission :=
  [⟨1, "t1", "A", 1000, SubmissionStatus.rejected, false⟩,
   ⟨2, "t1", "A", 3000, SubmissionStatus.accepted, false⟩,
   ⟨3, "t2", "A", 4200, SubmissionStatus.accepted, false⟩,
   ⟨4, "t3", "A", 4200, SubmissionStatus.accepted, false⟩,
   ⟨5, "t3", "B", 5000, SubmissionStatus.accepted, false⟩,
   ⟨6, "tX", "A", 5500, SubmissionStatus.accepted, false⟩,
   ⟨7, "t1", "Q", 5600, SubmissionStatus.accepted, false⟩]

def exState : RankState :=
  ⟨exContest, exTeams, exSubs, [], RankOptions.init⟩

/-! ### Claims -/

/-- C5, counterexample: the claim says `setWidth` sets the cutoff to
(contest duration) × width × 0.0001 for every width; on the 18000 s contest
with width 1 the code stores ⌊1.8⌋ = 1, not 1.8. -/
theorem claim_C5_counterexample :
    ¬ (((RankOptions.init.setWidth 1 exContest).timestamp : ℚ) =
        ((exContest.endTimeUnix - exContest.startTimeUnix : ℕ) : ℚ) * 1 * (1 / 10000)) := by
  norm_num [RankOptions.setWidth, RankOptions.init, exContest]

/-- C5 (amended): `setWidth(width, contest)` sets the cutoff timestamp to
the floor of (contest duration in seconds) × width × 0.0001 and enables the
filter; in particular `setWidth 5000` on an 18000-second contest yields
cutoff 9000. -/
theorem claim_C5 :
    (∀ (o : RankOptions) (w : Nat) (c : Contest),
      (o.setWidth w c).timestamp =
        ⌊((c.endTimeUnix - c.startTimeUnix : ℕ) : ℚ) * (w : ℚ) * (1 / 10000)⌋₊ ∧
      (o.setWidth w c).enableFilterSubmissionsByTimestamp = true) ∧
    (RankOptions.init.setWidth 5000 exContest).timestamp = 9000 := by
  refine ⟨fun o w c => ⟨?_, rfl⟩, by decide⟩
  rw [mul_one_div, ← Nat.cast_mul, Nat.floor_div_ofNat, Nat.floor_natCast]
  rfl

/-- C6: award construction walks gold, silver, bronze in that fixed order,
allocating for each present tier a contiguous block of the configured size
starting at the next free rank (from rank 1), skips absent tiers without
reserving ranks, and appends a trailing honorable tier up to the sentinel
0x3F3F3F3F; config {gold 1, silver 2} yields gold [1,1], silver [2,3],
honorable [4, sentinel] and no bronze tier. -/
theorem claim_C6 :
    (∀ cfg : MedalConfig, createAwards cfg = specAwards cfg) ∧
    createAwards ⟨some 1, some 2, none⟩ =
      [⟨MedalType.gold, 1, 1⟩, ⟨MedalType.silver, 2, 3⟩,
       ⟨MedalType.honorable, 4, 0x3F3F3F3F⟩] := by
  constructor
  · rintro ⟨g, s, b⟩
    cases g <;> cases s <;> cases b <;>
      simp [createAwards, specAwards, awardBlock] <;>
      omega
  · decide

/-- C10: `setWidth 0 c` enables the timestamp filter with cutoff 0 (width 0
does not disable the filter), so `getSubmissions` returns only the
submissions with timestamp ≤ 0. -/
theorem claim_C10 :
    ∀ (o : RankOptions) (c : Contest) (st : RankState),
      ((o.setWidth 0 c).enableFilterSubmissionsByTimestamp = true ∧
        (o.setWidth 0 c).timestamp = 0) ∧
      (∀ s : Submission,
        s ∈ getSubmissions { st with options := o.setWidth 0 c } ↔
          s ∈ st.submissions ∧ s.timestamp ≤ 0) := by
  intro o c st
  refine ⟨⟨rfl, by simp [RankOptions.setWidth]⟩, fun s => ?_⟩
  unfold getSubmissions
  simp only [RankOptions.setWidth]
  rw [if_neg (by simp)]
  rw [List.Perm.mem_iff (List.perm_insertionSort subLE _)]
  simp [List.mem_filter]

/-- Filter-enabled variant of the example state: cutoff 4200. -/
def exStateF : RankState :=
  { exState with options := ⟨true, 0, 4200⟩ }

/-- C2: with the timestamp filter enabled at cutoff C, `getSubmissions`
returns exactly the owned submissions with timestamp ≤ C in the canonical
ascending order; with the filter disabled it returns the full owned
sequence.  The hypothesis is the constructor invariant: the owned copy is
sorted by `Submission.compare` at construction (`rank.ts` line 52). -/
theorem claim_C2 (st : RankState) (h : List.Sorted subLE st.submissions) :
    (st.options.enableFilterSubmissionsByTimestamp = true →
      getSubmissions st =
        st.submissions.filter (fun s => s.timestamp ≤ st.options.timestamp) ∧
      List.Sorted subLE (getSubmissions st)) ∧
    (st.options.enableFilterSubmissionsByTimestamp = false →
      getSubmissions st = st.submissions) := by
  constructor
  · intro he
    have hf : List.Sorted subLE
        (st.submissions.filter (fun s => s.timestamp ≤ st.options.timestamp)) :=
      h.filter _
    have heq : getSubmissions st =
        st.submissions.filter (fun s => s.timestamp ≤ st.options.timestamp) := by
      unfold getSubmissions
      rw [he, if_neg (by simp)]
      exact hf.insertionSort_eq
    exact ⟨heq, heq ▸ hf⟩
  · intro he
    unfold getSubmissions
    rw [he]
    simp

theorem claim_C2_witness :
    (exStateF.options.enableFilterSubmissionsByTimestamp = true →
      getSubmissions exStateF =
        exStateF.submissions.filter
          (fun s => s.timestamp ≤ exStateF.options.timestamp) ∧
      List.Sorted subLE (getSubmissions exStateF)) ∧
    (exStateF.options.enableFilterSubmissionsByTimestamp = false →
      getSubmissions exStateF = exStateF.submissions) :=
  claim_C2 exStateF (by decide)

/-- `assignStep` touches only the `rank` field. -/
theorem assignStep_key (pos : Nat) (prev : Option Team) (t : Team) :
    (assignStep pos prev t).solvedProblemNum = t.solvedProblemNum ∧
    (assignStep pos prev t).penalty = t.penalty := by
  unfold assignStep
  cases prev with
  | none => exact ⟨rfl, rfl⟩
  | some pt =>
    by_cases hc : isEqualRank { t with rank := pos } pt = true <;> simp [hc]

/-- The rank assigned by one step of the walk. -/
theorem assignStep_rank (pos : Nat) (prev : Option Team) (t : Team) :
    (assignStep pos prev t).rank =
      match prev with
      | none => pos
      | some pt => if isEqualRank t pt then pt.rank else pos := by
  unfold assignStep
  cases prev with
  | none => rfl
  | some pt =>
    have hkey : isEqualRank { t with rank := pos } pt = isEqualRank t pt := rfl
    by_cases hc : isEqualRank t pt = true <;> simp [hkey, hc]

/-- `isEqualRank` depends only on the ranking key of its arguments. -/
theorem isEqualRank_congr (a b b' : Team)
    (h1 : b.solvedProblemNum = b'.solvedProblemNum)
    (h2 : b.penalty = b'.penalty) :
    isEqualRank a b = isEqualRank a b' := by
  unfold isEqualRank
  rw [h1, h2]

/-- The rank-assignment walk preserves list length. -/
theorem assignRanksGo_length :
    ∀ (l : List Team) (pos : Nat) (prev : Option Team),
      (assignRanksGo pos prev l).length = l.length := by
  intro l
  induction l with
  | nil => intro pos prev; rfl
  | cons t rest ih =>
    intro pos prev
    simp only [assignRanksGo, List.length_cons, ih]

/-- The rank-assignment walk changes only the `rank` field: the ranking key
of each output position equals the input's. -/
theorem assignRanksGo_key :
    ∀ (l : List Team) (pos : Nat) (prev : Option Team) (i : Nat)
      (h : i < l.length) (h' : i < (assignRanksGo pos prev l).length),
      ((assignRanksGo pos prev l).get ⟨i, h'⟩).solvedProblemNum =
        (l.get ⟨i, h⟩).solvedProblemNum ∧
      ((assignRanksGo pos prev l).get ⟨i, h'⟩).penalty =
        (l.get ⟨i, h⟩).penalty := by
  intro l
  induction l with
  | nil => intro pos prev i h; exact absurd h (Nat.not_lt_zero i)
  | cons t rest ih =>
    intro pos prev i h h'
    cases i with
    | zero => exact assignStep_key pos prev t
    | succ j =>
      have hj : j < rest.length := Nat.lt_of_succ_lt_succ h
      exact ih (pos + 1) (some (assignStep pos prev t)) j hj _

/-- The head of the rank-assignment walk: `pos`, or the predecessor's rank
when the keys are equal. -/
theorem assignRanksGo_rank_zero :
    ∀ (l : List Team) (pos : Nat) (prev : Option Team)
      (h : 0 < l.length) (h' : 0 < (assignRanksGo pos prev l).length),
      ((assignRanksGo pos prev l).get ⟨0, h'⟩).rank =
        match prev with
        | none => pos
        | some pt => if isEqualRank (l.get ⟨0, h⟩) pt then pt.rank else pos := by
  intro l pos prev h h'
  cases prev with
  | none =>
    match l, h, h' with
    | t :: rest, _, _ => exact assignStep_rank pos none t
  | some pt =>
    match l, h, h' with
    | t :: rest, _, _ => exact assignStep_rank pos (some pt) t

/-- Each later position of the rank-assignment walk: the predecessor's
assigned rank on equal keys, else the sequential position. -/
theorem assignRanksGo_rank_succ :
    ∀ (l : List Team) (pos : Nat) (prev : Option Team) (i : Nat)
      (h1 : i + 1 < l.length) (h0 : i < l.length)
      (h1' : i + 1 < (assignRanksGo pos prev l).length)
      (h0' : i < (assignRanksGo pos prev l).length),
      ((assignRanksGo pos prev l).get ⟨i + 1, h1'⟩).rank =
        if isEqualRank (l.get ⟨i + 1, h1⟩) (l.get ⟨i, h0⟩) then
          ((assignRanksGo pos prev l).get ⟨i, h0'⟩).rank
        else pos + i + 1 := by
  intro l
  induction l with
  | nil => intro pos prev i h1; exact absurd h1 (Nat.not_lt_zero _)
  | cons t rest ih =>
    intro pos prev i h1 h0 h1' h0'
    cases i with
    | zero =>
      have hr : 0 < rest.length := Nat.lt_of_succ_lt_succ h1
      have hr' : 0 < (assignRanksGo (pos + 1)
          (some (assignStep pos prev t)) rest).length := by
        rw [assignRanksGo_length]; exact hr
      have hz := assignRanksGo_rank_zero rest (pos + 1)
        (some (assignStep pos prev t)) hr hr'
      have hcongr := isEqualRank_congr (rest.get ⟨0, hr⟩)
        (assignStep pos prev t) t
        (assignStep_key pos prev t).1 (assignStep_key pos prev t).2
      simp only [assignRanksGo, List.get] at *
      rw [hz, hcongr]
    | succ j =>
      have hj1 : j + 1 < rest.length := Nat.lt_of_succ_lt_succ h1
      have hj0 : j < rest.length := Nat.lt_of_succ_lt_succ h0
      have hj1' : j + 1 < (assignRanksGo (pos + 1)
          (some (assignStep pos prev t)) rest).length := by
        rw [assignRanksGo_length]; exact hj1
      have hj0' : j < (assignRanksGo (pos + 1)
          (some (assignStep pos prev t)) rest).length := by
        rw [assignRanksGo_length]; exact hj0
      have hih := ih (pos + 1) (some (assignStep pos prev t)) j hj1 hj0 hj1' hj0'
      have harith : pos + 1 + j + 1 = pos + (j + 1) + 1 := by omega
      rw [harith] at hih
      simp only [assignRanksGo, List.get]
      exact hih

/-- C4: rank assignment walks the sorted sequence assigning 1..n; a team
whose ranking key equals its immediate predecessor's receives the
predecessor's rank, otherwise its sequential position; in the example
contest the strictly better team gets rank 1 and the tied pair both get
rank 2. -/
theorem claim_C4 :
    (∀ (l : List Team) (h0 : 0 < l.length)
        (h0' : 0 < (assignRanks l).length),
        ((assignRanks l).get ⟨0, h0'⟩).rank = 1) ∧
    (∀ (l : List Team) (i : Nat) (h1 : i + 1 < l.length) (h0 : i < l.length)
        (h1' : i + 1 < (assignRanks l).length)
        (h0' : i < (assignRanks l).length),
        ((assignRanks l).get ⟨i + 1, h1'⟩).rank =
          if isEqualRank (l.get ⟨i + 1, h1⟩) (l.get ⟨i, h0⟩) then
            ((assignRanks l).get ⟨i, h0'⟩).rank
          else i + 2) ∧
    (buildRank exState).teams.map (fun t => (t.id, t.rank)) =
      [("t3", 1), ("t1", 2), ("t2", 2)] := by
  refine ⟨?_, ?_, by decide⟩
  · intro l h0 h0'
    exact assignRanksGo_rank_zero l 1 none h0 h0'
  · intro l i h1 h0 h1' h0'
    have h := assignRanksGo_rank_succ l 1 none i h1 h0 h1' h0'
    have harith : 1 + i + 1 = i + 2 := by omega
    rw [harith] at h
    exact h

/-- A concrete already-sorted team list: one strictly better team followed
by a tied pair. -/
def exRanked : List Team :=
  [⟨"a", "o1", [], [], 2, 100, 0, 0, 0⟩,
   ⟨"b", "o2", [], [], 1, 50, 0, 0, 0⟩,
   ⟨"c", "o3", [], [], 1, 50, 0, 0, 0⟩]

theorem claim_C4_witness :
    ((assignRanks exRanked).get ⟨2, by decide⟩).rank =
      if isEqualRank (exRanked.get ⟨2, by decide⟩) (exRanked.get ⟨1, by decide⟩) then
        ((assignRanks exRanked).get ⟨1, by decide⟩).rank
      else 3 :=
  claim_C4.2.1 exRanked 1 (by decide) (by decide) (by decide) (by decide)

/-- A key-based `find?` fails exactly when the key is absent. -/
theorem find?_key_none_iff {α : Type} (f : α → String) (l : List α) (a : String) :
    l.find? (fun x => f x == a) = none ↔ a ∉ l.map f := by
  rw [List.find?_eq_none]
  constructor
  · intro h hmem
    rcases List.mem_map.mp hmem with ⟨x, hx, hfx⟩
    exact h x hx (by simp [hfx])
  · intro h x hx hpx
    exact h (List.mem_map.mpr ⟨x, hx, by simpa using hpx⟩)

theorem teamUpd_id (s : Submission) (pstats : ProblemStatistics) (u : Team) :
    (teamUpd s pstats u).id = u.id := rfl

theorem probUpd_id (s : Submission) (ps : TeamProblemStatistics) (q : Problem) :
    (probUpd s ps q).id = q.id := by
  unfold probUpd
  split_ifs <;> rfl

/-- One replay step never changes the set (or order) of team ids and
problem ids. -/
theorem stepSub_ids (st : RankState) (s : Submission) :
    (stepSub st s).teams.map (fun t => t.id) = st.teams.map (fun t => t.id) ∧
    (stepSub st s).contest.problems.map (fun p => p.id) =
      st.contest.problems.map (fun p => p.id) := by
  unfold stepSub
  cases ht : st.teams.find? (fun t => t.id == s.teamId) with
  | none => exact ⟨rfl, rfl⟩
  | some team =>
    cases hp : st.contest.problems.find? (fun p => p.id == s.problemId) with
    | none => exact ⟨rfl, rfl⟩
    | some problem =>
      constructor
      · rw [List.map_map]
        apply List.map_congr_left
        intro u hu
        by_cases hc : (u.id == s.teamId) = true <;>
          simp [Function.comp, hc, teamUpd_id]
      · rw [List.map_map]
        apply List.map_congr_left
        intro q hq
        by_cases hc : (q.id == s.problemId) = true <;>
          simp [Function.comp, hc, probUpd_id]

/-- The replay fold never changes the team and problem id sequences. -/
theorem foldl_stepSub_ids :
    ∀ (l : List Submission) (st : RankState),
      (l.foldl stepSub st).teams.map (fun t => t.id) =
        st.teams.map (fun t => t.id) ∧
      (l.foldl stepSub st).contest.problems.map (fun p => p.id) =
        st.contest.problems.map (fun p => p.id) := by
  intro l
  induction l with
  | nil => intro st; exact ⟨rfl, rfl⟩
  | cons s rest ih =>
    intro st
    have h1 := stepSub_ids st s
    have h2 := ih (stepSub st s)
    exact ⟨h2.1.trans h1.1, h2.2.trans h1.2⟩

/-- A replay step on a submission with an unknown team id or problem id is
the identity. -/
theorem stepSub_unknown (st : RankState) (s : Submission)
    (h : s.teamId ∉ st.teams.map (fun t => t.id) ∨
         s.problemId ∉ st.contest.problems.map (fun p => p.id)) :
    stepSub st s = st := by
  unfold stepSub
  rcases h with h | h
  · rw [(find?_key_none_iff (fun t => t.id) st.teams s.teamId).mpr h]
  · rw [(find?_key_none_iff (fun p => p.id) st.contest.problems s.problemId).mpr h]
    cases st.teams.find? (fun t => t.id == s.teamId) <;> rfl

/-- C7: a submission whose team id or problem id has no matching team or
contest problem is skipped entirely — the replay step leaves the whole
state unchanged — and removing it from the replayed list does not change
the result of the remaining build. -/
theorem claim_C7 (st : RankState) (s : Submission)
    (h : s.teamId ∉ st.teams.map (fun t => t.id) ∨
         s.problemId ∉ st.contest.problems.map (fun p => p.id)) :
    stepSub st s = st ∧
    ∀ (l1 l2 : List Submission),
      (l1 ++ s :: l2).foldl stepSub st = (l1 ++ l2).foldl stepSub st := by
  refine ⟨stepSub_unknown st s h, fun l1 l2 => ?_⟩
  rw [List.foldl_append, List.foldl_append, List.foldl_cons]
  congr 1
  apply stepSub_unknown
  have hids := foldl_stepSub_ids l1 st
  rcases h with h | h
  · left
    rw [hids.1]
    exact h
  · right
    rw [hids.2]
    exact h

def exSubUnknown : Submission :=
  ⟨6, "tX", "A", 5500, SubmissionStatus.accepted, false⟩

def exSubA : Submission :=
  ⟨1, "t1", "A", 1000, SubmissionStatus.rejected, false⟩

def exSubB : Submission :=
  ⟨2, "t1", "A", 3000, SubmissionStatus.accepted, false⟩

theorem claim_C7_witness :
    stepSub exState exSubUnknown = exState ∧
    ([exSubA] ++ exSubUnknown :: [exSubB]).foldl stepSub exState =
      ([exSubA] ++ [exSubB]).foldl stepSub exState :=
  ⟨(claim_C7 exState exSubUnknown (by decide)).1,
   (claim_C7 exState exSubUnknown (by decide)).2 [exSubA] [exSubB]⟩

/-- C8: for a submission on a problem the team has already solved, the only
state changes are appending the submission to the team's and the
team-problem-statistics' submission lists and incrementing the problem's
submitted counter; every other field is unchanged.  `hall` states the
already-solved hypothesis for the team's record(s) of this problem, and
`hnd` is the roster invariant of unique team ids. -/
theorem claim_C8 (st : RankState) (s : Submission) (team : Team)
    (problem : Problem)
    (hnd : (st.teams.map (fun t => t.id)).Nodup)
    (ht : st.teams.find? (fun t => t.id == s.teamId) = some team)
    (hp : st.contest.problems.find? (fun p => p.id == s.problemId) = some problem)
    (hs : (psLookup team s.problemId).isSolved = true)
    (hall : ∀ q ∈ team.problemStatistics, q.problemId = s.problemId →
      q.isSolved = true) :
    stepSub st s =
      { st with
        teams := st.teams.map (fun u =>
          if u.id == s.teamId then
            { u with
              submissions := u.submissions ++ [s]
              problemStatistics := u.problemStatistics.map (fun q =>
                if q.problemId == s.problemId then
                  { q with submissions := q.submissions ++ [s] }
                else q) }
          else u)
        contest := { st.contest with
          problems := st.contest.problems.map (fun q =>
            if q.id == s.problemId then
              { q with statistics :=
                { q.statistics with
                  submittedNum := q.statistics.submittedNum + 1 } }
            else q) } } := by
  have hteam_mem : team ∈ st.teams := List.mem_of_find?_eq_some ht
  have hteam_id : team.id = s.teamId := by
    have := List.find?_some ht
    simpa using this
  unfold stepSub
  rw [ht, hp]
  have hteams : st.teams.map (fun u =>
      if u.id == s.teamId then teamUpd s problem.statistics u else u) =
    st.teams.map (fun u =>
      if u.id == s.teamId then
        { u with
          submissions := u.submissions ++ [s]
          problemStatistics := u.problemStatistics.map (fun q =>
            if q.problemId == s.problemId then
              { q with submissions := q.submissions ++ [s] }
            else q) }
      else u) := by
    apply List.map_congr_left
    intro u hu
    by_cases hc : (u.id == s.teamId) = true
    · have hue : u = team := by
        apply List.inj_on_of_nodup_map hnd hu hteam_mem
        rw [hteam_id]
        exact eq_of_beq hc
      subst hue
      rw [if_pos hc, if_pos hc]
      simp only [teamUpd, hs, if_true]
      congr 1
      apply List.map_congr_left
      intro q hq
      by_cases hq2 : (q.problemId == s.problemId) = true
      · have hqs : q.isSolved = true := hall q hq (eq_of_beq hq2)
        rw [if_pos hq2, if_pos hq2]
        simp only [tpsUpdate, hqs, if_true]
      · rw [if_neg hq2, if_neg hq2]
    · rw [if_neg hc, if_neg hc]
  have hprobs : st.contest.problems.map (fun q =>
      if q.id == s.problemId then probUpd s (psLookup team s.problemId) q else q) =
    st.contest.problems.map (fun q =>
      if q.id == s.problemId then
        { q with statistics :=
          { q.statistics with submittedNum := q.statistics.submittedNum + 1 } }
      else q) := by
    apply List.map_congr_left
    intro q hq
    by_cases hc : (q.id == s.problemId) = true
    · rw [if_pos hc, if_pos hc]
      simp only [probUpd, hs, if_true]
    · rw [if_neg hc, if_neg hc]
  simp only [hteams, hprobs]

def exPS : TeamProblemStatistics :=
  { emptyTPS with
    problemId := "A"
    contestPenalty := 1200
    isSolved := true
    solvedTimestamp := 3000
    totalCount := 1 }

def exSolvedTeam : Team :=
  ⟨"t1", "orgX", [exPS], [], 1, 3000, 1, 1, 3000⟩

def exSolvedState : RankState :=
  ⟨exContest, [exSolvedTeam], [], [], RankOptions.init⟩

def exSub8 : Submission :=
  ⟨9, "t1", "A", 4000, SubmissionStatus.accepted, false⟩

theorem claim_C8_witness :
    stepSub exSolvedState exSub8 =
      { exSolvedState with
        teams := exSolvedState.teams.map (fun u =>
          if u.id == exSub8.teamId then
            { u with
              submissions := u.submissions ++ [exSub8]
              problemStatistics := u.problemStatistics.map (fun q =>
                if q.problemId == exSub8.problemId then
                  { q with submissions := q.submissions ++ [exSub8] }
                else q) }
          else u)
        contest := { exSolvedState.contest with
          problems := exSolvedState.contest.problems.map (fun q =>
            if q.id == exSub8.problemId then
              { q with statistics :=
                { q.statistics with
                  submittedNum := q.statistics.submittedNum + 1 } }
            else q) } } :=
  claim_C8 exSolvedState exSub8 exSolvedTeam ⟨"A", emptyProblemStatistics⟩
    (by decide) (by decide) (by decide) (by decide) (by decide)

/-- All submissions in a list carry pairwise equal timestamps. -/
def allEqTs (l : List Submission) : Prop :=
  ∀ a ∈ l, ∀ b ∈ l, a.timestamp = b.timestamp

instance (l : List Submission) : Decidable (allEqTs l) := by
  unfold allEqTs; infer_instance

/-- A `getLast?` value is a member of the list. -/
theorem mem_of_getLast?_eq_some {l : List Submission} {x : Submission}
    (hl : l.getLast? = some x) : x ∈ l := by
  rcases List.mem_getLast?_eq_getLast (Option.mem_def.mpr hl) with ⟨hne, hxe⟩
  rw [hxe]
  exact List.getLast_mem hne

/-- Appending a submission admitted by the first-solve condition preserves
pairwise-equal timestamps. -/
theorem allEqTs_append (l : List Submission) (s : Submission)
    (h : allEqTs l)
    (hc : l.getLast? = none ∨
      ∃ x, l.getLast? = some x ∧ x.timestamp = s.timestamp) :
    allEqTs (l ++ [s]) := by
  have key : ∀ a ∈ l, a.timestamp = s.timestamp := by
    rcases hc with hc | ⟨x, hx, hts⟩
    · intro a ha
      exact absurd ha (by simp [List.getLast?_eq_none_iff.mp hc])
    · intro a ha
      exact (h a ha x (mem_of_getLast?_eq_some hx)).trans hts
  intro a ha b hb
  rcases List.mem_append.mp ha with ha1 | ha1 <;>
    rcases List.mem_append.mp hb with hb1 | hb1
  · exact h a ha1 b hb1
  · rw [List.mem_singleton.mp hb1]
    exact key a ha1
  · rw [List.mem_singleton.mp ha1]
    exact (key b hb1).symm
  · rw [List.mem_singleton.mp ha1, List.mem_singleton.mp hb1]

/-- A true `firstSolveCond` means: empty first-solve list, or its last
entry ties the submission's timestamp. -/
theorem firstSolveCond_cases (pstats : ProblemStatistics) (s : Submission)
    (hc : firstSolveCond pstats s = true) :
    pstats.firstSolveSubmissions.getLast? = none ∨
      ∃ x, pstats.firstSolveSubmissions.getLast? = some x ∧
        x.timestamp = s.timestamp := by
  unfold firstSolveCond lastTiesOrEmpty at hc
  cases hl : pstats.firstSolveSubmissions.getLast? with
  | none => exact Or.inl rfl
  | some x =>
    rw [hl] at hc
    exact Or.inr ⟨x, rfl, eq_of_beq hc⟩

/-- The problem update preserves pairwise-equal timestamps of the
first-solve list. -/
theorem probUpd_allEqTs (s : Submission) (ps : TeamProblemStatistics)
    (q : Problem) (h : allEqTs q.statistics.firstSolveSubmissions) :
    allEqTs (probUpd s ps q).statistics.firstSolveSubmissions := by
  unfold probUpd
  split_ifs with h1 h2 h3 h4 h5 <;> try exact h
  · -- accepted branch: conditional append
    simp only
    by_cases hc : firstSolveCond q.statistics s = true
    · rw [if_pos hc]
      exact allEqTs_append _ s h (firstSolveCond_cases q.statistics s hc)
    · rw [if_neg hc]
      exact h

/-- One replay step preserves pairwise-equal timestamps of every problem's
first-solve list. -/
theorem stepSub_allEqTs (st : RankState) (s : Submission)
    (h : ∀ p ∈ st.contest.problems, allEqTs p.statistics.firstSolveSubmissions) :
    ∀ p ∈ (stepSub st s).contest.problems,
      allEqTs p.statistics.firstSolveSubmissions := by
  unfold stepSub
  cases ht : st.teams.find? (fun t => t.id == s.teamId) with
  | none => exact h
  | some team =>
    cases hp : st.contest.problems.find? (fun p => p.id == s.problemId) with
    | none => exact h
    | some problem =>
      intro p hmem
      rcases List.mem_map.mp hmem with ⟨q, hq, rfl⟩
      by_cases hc : (q.id == s.problemId) = true
      · rw [if_pos hc]
        exact probUpd_allEqTs s _ q (h q hq)
      · rw [if_neg hc]
        exact h q hq

/-- C9: at every point of the submission replay — i.e. after folding any
list of submissions from a state whose problems already satisfy it, in
particular from the reset state where all first-solve lists are empty —
all submissions in a problem's first-solve list have pairwise equal
timestamps (an entry is appended only when the list is empty or its
timestamp equals the last entry's). -/
theorem claim_C9 (st : RankState)
    (h : ∀ p ∈ st.contest.problems, allEqTs p.statistics.firstSolveSubmissions) :
    (∀ (l : List Submission), ∀ p ∈ (l.foldl stepSub st).contest.problems,
      allEqTs p.statistics.firstSolveSubmissions) ∧
    (∀ p ∈ st.contest.problems.map resetProblem,
      allEqTs p.statistics.firstSolveSubmissions) := by
  constructor
  · intro l
    induction l generalizing st with
    | nil => exact h
    | cons s rest ih => exact ih (stepSub st s) (stepSub_allEqTs st s h)
  · intro p hmem
    rcases List.mem_map.mp hmem with ⟨q, hq, rfl⟩
    intro a ha
    exact absurd ha (List.not_mem_nil a)

theorem claim_C9_witness :
    allEqTs (((exSubs.foldl stepSub exState).contest.problems.get
      ⟨0, by decide⟩).statistics.firstSolveSubmissions) :=
  (claim_C9 exState (by decide)).1 exSubs _ (List.get_mem _ 0 (by decide))

/-! ### C3: first-solve lists hold exactly the earliest-tying solving
submissions.  `solvingSubs` is the replay-independent description of the
submissions that flip a team's solved flag for one problem: counted
(known team, non-ignored), accepted, on that problem, by a team that has
not yet solved it. -/

/-- Ascending-timestamp order. -/
def tsLE (a b : Submission) : Prop := a.timestamp ≤ b.timestamp

/-- Submission `s` flips the solved flag of problem `pid` given the known
team ids `tids` and the set `solved` of teams that already solved `pid`. -/
def flips (tids : List String) (pid : String) (solved : List String)
    (s : Submission) : Prop :=
  s.problemId = pid ∧ s.teamId ∈ tids ∧ s.teamId ∉ solved ∧
    (s.isIgnore || s.isNotCalculatedPenaltyStatus) = false ∧
    s.isAccepted = true

instance (tids : List String) (pid : String) (solved : List String)
    (s : Submission) : Decidable (flips tids pid solved s) := by
  unfold flips; infer_instance

/-- The solving submissions of problem `pid` within a replayed list,
starting from the teams in `solved` having already solved it. -/
def solvingSubs (tids : List String) (pid : String) :
    List Submission → List String → List Submission
  | [], _ => []
  | s :: rest, solved =>
    if flips tids pid solved s then
      s :: solvingSubs tids pid rest (s.teamId :: solved)
    else
      solvingSubs tids pid rest solved

/-- One first-solve-list update: append when the list is empty or the last
entry ties the timestamp (the condition of `rank.ts` lines 118-121). -/
def fssStep (cur : List Submission) (x : Submission) : List Submission :=
  if lastTiesOrEmpty cur x then cur ++ [x] else cur

/-- Replay of first-solve-list updates over a list of solving
submissions. -/
def fssFold (F : List Submission) (sl : List Submission) : List Submission :=
  sl.foldl fssStep F

theorem solvingSubs_sublist (tids : List String) (pid : String) :
    ∀ (l : List Submission) (solved : List String),
      (solvingSubs tids pid l solved).Sublist l := by
  intro l
  induction l with
  | nil => intro solved; exact List.Sublist.refl []
  | cons s rest ih =>
    intro solved
    unfold solvingSubs
    by_cases hc : flips tids pid solved s
    · rw [if_pos hc]
      exact (ih (s.teamId :: solved)).cons₂ s
    · rw [if_neg hc]
      exact (ih solved).cons s

/-- Once every upcoming timestamp differs from the common timestamp of the
nonempty current list, the first-solve fold is frozen. -/
theorem fssFold_frozen (t0 : Nat) :
    ∀ (sl F : List Submission), F ≠ [] → (∀ a ∈ F, a.timestamp = t0) →
      (∀ y ∈ sl, ¬ y.timestamp = t0) → fssFold F sl = F := by
  intro sl
  induction sl with
  | nil => intro F _ _ _; rfl
  | cons y sl ih =>
    intro F hne hF hsl
    have hstep : fssStep F y = F := by
      unfold fssStep lastTiesOrEmpty
      cases hl : F.getLast? with
      | none => exact absurd (List.getLast?_eq_none_iff.mp hl) hne
      | some x =>
        have hx : x.timestamp = t0 := hF x (mem_of_getLast?_eq_some hl)
        have hbe : (x.timestamp == y.timestamp) = false := by
          rw [beq_eq_false_iff_ne]
          intro hxy
          exact hsl y (List.mem_cons_self y sl) (by rw [← hxy, hx])
        simp [hbe]
    show fssFold (fssStep F y) sl = F
    rw [hstep]
    exact ih F hne hF (fun z hz => hsl z (List.mem_cons_of_mem y hz))

/-- Over a sorted tail bounded below by the common timestamp `t0` of the
nonempty current list, the first-solve fold appends exactly the leading
run of submissions tying `t0`. -/
theorem fssFold_ties (t0 : Nat) :
    ∀ (sl F : List Submission), List.Pairwise tsLE sl → F ≠ [] →
      (∀ a ∈ F, a.timestamp = t0) → (∀ y ∈ sl, t0 ≤ y.timestamp) →
      fssFold F sl = F ++ sl.takeWhile (fun y => y.timestamp == t0) := by
  intro sl
  induction sl with
  | nil => intro F _ _ _ _; simp [fssFold]
  | cons y sl ih =>
    intro F hsort hne hF hbound
    by_cases hy : y.timestamp = t0
    · have hstep : fssStep F y = F ++ [y] := by
        unfold fssStep lastTiesOrEmpty
        cases hl : F.getLast? with
        | none => exact absurd (List.getLast?_eq_none_iff.mp hl) hne
        | some x =>
          have hx : x.timestamp = t0 := hF x (mem_of_getLast?_eq_some hl)
          have hbe : (x.timestamp == y.timestamp) = true :=
            beq_iff_eq.mpr (by rw [hx, hy])
          simp [hbe]
      have htake : (y :: sl).takeWhile (fun z => z.timestamp == t0) =
          y :: sl.takeWhile (fun z => z.timestamp == t0) := by
        rw [List.takeWhile_cons_of_pos (by simpa using hy)]
      show fssFold (fssStep F y) sl = _
      rw [hstep, htake]
      rw [ih (F ++ [y]) (List.Pairwise.of_cons hsort) (by simp)
        (fun a ha => by
          rcases List.mem_append.mp ha with ha | ha
          · exact hF a ha
          · rw [List.mem_singleton.mp ha]; exact hy)
        (fun z hz => hbound z (List.mem_cons_of_mem y hz))]
      simp
    · have hstep : fssStep F y = F := by
        unfold fssStep lastTiesOrEmpty
        cases hl : F.getLast? with
        | none => exact absurd (List.getLast?_eq_none_iff.mp hl) hne
        | some x =>
          have hx : x.timestamp = t0 := hF x (mem_of_getLast?_eq_some hl)
          have hbe : (x.timestamp == y.timestamp) = false :=
            beq_eq_false_iff_ne.mpr (by rw [hx]; exact fun hh => hy hh.symm)
          simp [hbe]
      have hlt : t0 < y.timestamp :=
        lt_of_le_of_ne (hbound y (List.mem_cons_self y sl)) (by
          intro hh; exact hy hh.symm)
      have htake : (y :: sl).takeWhile (fun z => z.timestamp == t0) = [] := by
        rw [List.takeWhile_cons_of_neg]
        simp only [beq_iff_eq]
        intro hh
        exact hy hh
      show fssFold (fssStep F y) sl = _
      rw [hstep, htake, List.append_nil]
      refine fssFold_frozen t0 sl F hne hF (fun z hz hzts => ?_)
      have : y.timestamp ≤ z.timestamp :=
        (List.pairwise_cons.mp hsort).1 z hz
      omega

/-- In a sorted list bounded below by `t0`, every member tying `t0` lies in
the leading tying run. -/
theorem mem_takeWhile_ties (t0 : Nat) :
    ∀ (sl : List Submission), List.Pairwise tsLE sl →
      (∀ y ∈ sl, t0 ≤ y.timestamp) →
      ∀ s ∈ sl, s.timestamp = t0 →
        s ∈ sl.takeWhile (fun y => y.timestamp == t0) := by
  intro sl
  induction sl with
  | nil => intro _ _ s hs; exact absurd hs (List.not_mem_nil s)
  | cons y sl ih =>
    intro hsort hbound s hs hts
    have hy : y.timestamp = t0 := by
      rcases List.mem_cons.mp hs with rfl | hs2
      · exact hts
      · have h1 : t0 ≤ y.timestamp := hbound y (List.mem_cons_self y sl)
        have h2 : y.timestamp ≤ s.timestamp :=
          (List.pairwise_cons.mp hsort).1 s hs2
        omega
    rw [List.takeWhile_cons_of_pos (by simpa using hy)]
    rcases List.mem_cons.mp hs with rfl | hs2
    · exact List.mem_cons_self _ _
    · exact List.mem_cons_of_mem y
        (ih (List.Pairwise.of_cons hsort)
          (fun z hz => hbound z (List.mem_cons_of_mem y hz)) s hs2 hts)

/-- `find?` commutes with a map that preserves the predicate. -/
theorem find?_map_pred {α : Type} (p : α → Bool) (g : α → α)
    (hg : ∀ x, p (g x) = p x) :
    ∀ (l : List α), (l.map g).find? p = Option.map g (l.find? p) := by
  intro l
  induction l with
  | nil => rfl
  | cons x rest ih =>
    simp only [List.map_cons]
    by_cases hx : p x = true
    · rw [List.find?_cons_of_pos _ (by rw [hg]; exact hx),
        List.find?_cons_of_pos _ hx]
      rfl
    · rw [List.find?_cons_of_neg _ (by rw [hg x]; exact hx),
        List.find?_cons_of_neg _ hx]
      exact ih

theorem tpsUpdate_problemId (s : Submission) (pstats : ProblemStatistics)
    (ps : TeamProblemStatistics) :
    (tpsUpdate s pstats ps).problemId = ps.problemId := by
  unfold tpsUpdate
  split_ifs <;> rfl

/-- The solved flag after one record update: already solved, or counted
and accepted. -/
theorem tpsUpdate_isSolved (s : Submission) (pstats : ProblemStatistics)
    (ps : TeamProblemStatistics) :
    (tpsUpdate s pstats ps).isSolved =
      (ps.isSolved ||
        (!(s.isIgnore || s.isNotCalculatedPenaltyStatus) && s.isAccepted)) := by
  unfold tpsUpdate
  by_cases h1 : ps.isSolved = true
  · rw [if_pos h1]
    simp [h1]
  · rw [if_neg h1]
    have h1' : ps.isSolved = false := by simpa using h1
    by_cases h2 : (s.isIgnore || s.isNotCalculatedPenaltyStatus) = true
    · rw [if_pos h2]
      simp [h1', h2]
    · rw [if_neg h2]
      have h2' : (s.isIgnore || s.isNotCalculatedPenaltyStatus) = false := by
        simpa using h2
      by_cases h3 : s.isAccepted = true
      · rw [if_pos h3]
        by_cases h4 : firstSolveCond pstats s = true
        · rw [if_pos h4]
          simp [h1', h2', h3]
        · rw [if_neg h4]
          simp [h1', h2', h3]
      · rw [if_neg h3]
        have h3' : s.isAccepted = false := by simpa using h3
        by_cases h5 : s.isRejected = true
        · rw [if_pos h5]
          simp [h1', h2', h3']
        · rw [if_neg h5]
          by_cases h6 : s.isPending = true
          · rw [if_pos h6]
            simp [h1', h2', h3']
          · rw [if_neg h6]
            simp [h1', h2', h3']

/-- The team update leaves the per-problem record id sequence unchanged. -/
theorem teamUpd_ps_ids (s : Submission) (pstats : ProblemStatistics)
    (u : Team) :
    (teamUpd s pstats u).problemStatistics.map (fun q => q.problemId) =
      u.problemStatistics.map (fun q => q.problemId) := by
  unfold teamUpd
  simp only [List.map_map]
  apply List.map_congr_left
  intro q _
  by_cases hc : (q.problemId == s.problemId) = true <;>
    simp [Function.comp, hc, tpsUpdate_problemId]

/-- The record lookup after a team update. -/
theorem psLookup_teamUpd (s : Submission) (pstats : ProblemStatistics)
    (u : Team) (pid : String) :
    psLookup (teamUpd s pstats u) pid =
      (Option.map
        (fun q => if q.problemId == s.problemId then tpsUpdate s pstats q else q)
        (u.problemStatistics.find? (fun q => q.problemId == pid))).getD
        emptyTPS := by
  unfold psLookup teamUpd
  simp only
  rw [find?_map_pred (fun q => q.problemId == pid)
    (fun q => if q.problemId == s.problemId then tpsUpdate s pstats q else q)
    (fun q => by
      by_cases hc : (q.problemId == s.problemId) = true <;>
        simp [hc, tpsUpdate_problemId])]

/-- The replay-state invariant carried through the fold: unique ids, one
record per contest problem on every team, and solved flags matching the
spec-level solved set `solvedF`. -/
structure ReplayInv (st : RankState) (solvedF : String → List String) : Prop where
  tidsNodup : (st.teams.map (fun t => t.id)).Nodup
  pidsNodup : (st.contest.problems.map (fun p => p.id)).Nodup
  psStructure : ∀ t ∈ st.teams,
    t.problemStatistics.map (fun q => q.problemId) =
      st.contest.problems.map (fun p => p.id)
  flags : ∀ t ∈ st.teams, ∀ pid ∈ st.contest.problems.map (fun p => p.id),
    ((psLookup t pid).isSolved = true ↔ t.id ∈ solvedF pid)

/-- The spec-level solved-set update for one replayed submission. -/
def stepSolvedF (tids : List String) (solvedF : String → List String)
    (s : Submission) : String → List String :=
  fun pid =>
    if flips tids pid (solvedF pid) s then s.teamId :: solvedF pid
    else solvedF pid

/-- A team update does not touch records of other problems. -/
theorem psLookup_teamUpd_ne (s : Submission) (pstats : ProblemStatistics)
    (u : Team) (pid : String) (hne : pid ≠ s.problemId) :
    psLookup (teamUpd s pstats u) pid = psLookup u pid := by
  rw [psLookup_teamUpd]
  unfold psLookup
  cases hf : u.problemStatistics.find? (fun q => q.problemId == pid) with
  | none => rfl
  | some r =>
    have hr : r.problemId = pid := by
      have h2 := List.find?_some hf
      exact eq_of_beq h2
    simp [hr, hne]

/-- The solved flag of the submission's own problem record after a team
update, provided the record exists. -/
theorem psLookup_teamUpd_eq (s : Submission) (pstats : ProblemStatistics)
    (u : Team)
    (hex : s.problemId ∈ u.problemStatistics.map (fun q => q.problemId)) :
    (psLookup (teamUpd s pstats u) s.problemId).isSolved =
      ((psLookup u s.problemId).isSolved ||
        (!(s.isIgnore || s.isNotCalculatedPenaltyStatus) && s.isAccepted)) := by
  rw [psLookup_teamUpd]
  unfold psLookup
  have hsome : ∃ y, u.problemStatistics.find?
      (fun q => q.problemId == s.problemId) = some y := by
    apply Option.isSome_iff_exists.mp
    apply List.find?_isSome.mpr
    rcases List.mem_map.mp hex with ⟨q, hq, hqe⟩
    exact ⟨q, hq, by simp [hqe]⟩
  rcases hsome with ⟨r, hr⟩
  rw [hr]
  have hrid : r.problemId = s.problemId := by
    have h2 := List.find?_some hr
    exact eq_of_beq h2
  simp [hrid, tpsUpdate_isSolved, Bool.not_or]

/-- One replay step preserves the replay invariant, with the spec-level
solved sets advanced by `stepSolvedF`. -/
theorem stepSub_inv (st : RankState) (solvedF : String → List String)
    (s : Submission) (h : ReplayInv st solvedF) :
    ReplayInv (stepSub st s)
      (stepSolvedF (st.teams.map (fun t => t.id)) solvedF s) := by
  unfold stepSub
  cases ht : st.teams.find? (fun t => t.id == s.teamId) with
  | none =>
    have hnone : s.teamId ∉ st.teams.map (fun t => t.id) :=
      (find?_key_none_iff (fun t => t.id) st.teams s.teamId).mp ht
    have hsf : ∀ pid,
        stepSolvedF (st.teams.map (fun t => t.id)) solvedF s pid =
          solvedF pid := by
      intro pid
      unfold stepSolvedF
      rw [if_neg]
      intro hf
      exact hnone hf.2.1
    exact ⟨h.tidsNodup, h.pidsNodup, h.psStructure,
      fun t htm pid hpid => (hsf pid) ▸ h.flags t htm pid hpid⟩
  | some team =>
    cases hp : st.contest.problems.find? (fun p => p.id == s.problemId) with
    | none =>
      have hnone : s.problemId ∉ st.contest.problems.map (fun p => p.id) :=
        (find?_key_none_iff (fun p => p.id) st.contest.problems
          s.problemId).mp hp
      refine ⟨h.tidsNodup, h.pidsNodup, h.psStructure,
        fun t htm pid hpid => ?_⟩
      have hsf : stepSolvedF (st.teams.map (fun t => t.id)) solvedF s pid =
          solvedF pid := by
        unfold stepSolvedF
        rw [if_neg]
        intro hf
        exact hnone (hf.1 ▸ hpid)
      exact hsf ▸ h.flags t htm pid hpid
    | some problem =>
      have hmapids : (st.teams.map (fun u =>
          if u.id == s.teamId then teamUpd s problem.statistics u else u)).map
            (fun t => t.id) = st.teams.map (fun t => t.id) := by
        rw [List.map_map]
        apply List.map_congr_left
        intro u _
        by_cases hc : (u.id == s.teamId) = true <;>
          simp [Function.comp, hc, teamUpd_id]
      have hmappids : (st.contest.problems.map (fun q =>
          if q.id == s.problemId then
            probUpd s (psLookup team s.problemId) q
          else q)).map (fun p => p.id) =
            st.contest.problems.map (fun p => p.id) := by
        rw [List.map_map]
        apply List.map_congr_left
        intro q _
        by_cases hc : (q.id == s.problemId) = true <;>
          simp [Function.comp, hc, probUpd_id]
      have hstid : s.teamId ∈ st.teams.map (fun t => t.id) := by
        refine List.mem_map.mpr ⟨team, List.mem_of_find?_eq_some ht, ?_⟩
        have h2 := List.find?_some ht
        exact eq_of_beq h2
      refine ⟨?_, ?_, ?_, ?_⟩
      · rw [hmapids]
        exact h.tidsNodup
      · rw [hmappids]
        exact h.pidsNodup
      · intro t' ht'
        rcases List.mem_map.mp ht' with ⟨t, htm, rfl⟩
        rw [hmappids]
        by_cases hc : (t.id == s.teamId) = true
        · simp only [hc, if_true]
          rw [teamUpd_ps_ids]
          exact h.psStructure t htm
        · have hc' : (t.id == s.teamId) = false := by simpa using hc
          simp only [hc', Bool.false_eq_true, if_false]
          exact h.psStructure t htm
      · intro t' ht' pid hpid
        rw [hmappids] at hpid
        rcases List.mem_map.mp ht' with ⟨t, htm, rfl⟩
        by_cases hc : (t.id == s.teamId) = true
        · have htid : t.id = s.teamId := eq_of_beq hc
          simp only [hc, if_true]
          by_cases hpe : pid = s.problemId
          · subst hpe
            have hex : s.problemId ∈ t.problemStatistics.map
                (fun q => q.problemId) := by
              rw [h.psStructure t htm]
              exact hpid
            rw [psLookup_teamUpd_eq s problem.statistics t hex, teamUpd_id]
            have hfl := h.flags t htm s.problemId hpid
            unfold stepSolvedF
            by_cases hsolv : (psLookup t s.problemId).isSolved = true
            · have hmem : t.id ∈ solvedF s.problemId := hfl.mp hsolv
              rw [if_neg]
              · simp [hsolv, hmem]
              · intro hf
                exact hf.2.2.1 (htid ▸ hmem)
            · have hnmem : t.id ∉ solvedF s.problemId :=
                fun hm => hsolv (hfl.mpr hm)
              have hsolv' : (psLookup t s.problemId).isSolved = false := by
                simpa using hsolv
              by_cases hig : (s.isIgnore || s.isNotCalculatedPenaltyStatus) = true
              · rw [if_neg]
                · simp [hsolv', hig, hnmem]
                · intro hf
                  have hcontra := hf.2.2.2.1
                  rw [hcontra] at hig
                  exact Bool.false_ne_true hig
              · have hig' : (s.isIgnore || s.isNotCalculatedPenaltyStatus) = false := by
                  simpa using hig
                by_cases hacc : s.isAccepted = true
                · have hfp : flips (st.teams.map (fun t => t.id)) s.problemId
                      (solvedF s.problemId) s := by
                    unfold flips
                    exact ⟨rfl, hstid, htid ▸ hnmem, hig', hacc⟩
                  rw [if_pos hfp]
                  simp [hsolv', hig', hacc, htid]
                · have hacc' : s.isAccepted = false := by simpa using hacc
                  rw [if_neg]
                  · simp [hsolv', hig', hacc', hnmem]
                  · intro hf
                    exact hacc hf.2.2.2.2
          · rw [psLookup_teamUpd_ne s problem.statistics t pid hpe, teamUpd_id]
            have hsf : stepSolvedF (st.teams.map (fun t => t.id)) solvedF s pid =
                solvedF pid := by
              unfold stepSolvedF
              rw [if_neg]
              intro hf
              exact hpe hf.1.symm
            rw [hsf]
            exact h.flags t htm pid hpid
        · have htid : t.id ≠ s.teamId := by simpa using hc
          have hc' : (t.id == s.teamId) = false := by simpa using hc
          simp only [hc', Bool.false_eq_true, if_false]
          unfold stepSolvedF
          have hfl := h.flags t htm pid hpid
          by_cases hf : flips (st.teams.map (fun t => t.id)) pid (solvedF pid) s
          · rw [if_pos hf]
            constructor
            · intro hx
              exact List.mem_cons_of_mem _ (hfl.mp hx)
            · intro hx
              rcases List.mem_cons.mp hx with hx | hx
              · exact absurd hx htid
              · exact hfl.mpr hx
          · rw [if_neg hf]
            exact hfl

theorem probUpd_fss_solved (s : Submission) (ps : TeamProblemStatistics)
    (q : Problem) (hsolv : ps.isSolved = true) :
    (probUpd s ps q).statistics.firstSolveSubmissions =
      q.statistics.firstSolveSubmissions := by
  unfold probUpd
  simp [hsolv]

theorem probUpd_fss_ignored (s : Submission) (ps : TeamProblemStatistics)
    (q : Problem) (hsolv : ps.isSolved = false)
    (hig : (s.isIgnore || s.isNotCalculatedPenaltyStatus) = true) :
    (probUpd s ps q).statistics.firstSolveSubmissions =
      q.statistics.firstSolveSubmissions := by
  unfold probUpd
  simp [hsolv, hig]

theorem probUpd_fss_notacc (s : Submission) (ps : TeamProblemStatistics)
    (q : Problem) (hsolv : ps.isSolved = false)
    (hig : (s.isIgnore || s.isNotCalculatedPenaltyStatus) = false)
    (hacc : s.isAccepted = false) :
    (probUpd s ps q).statistics.firstSolveSubmissions =
      q.statistics.firstSolveSubmissions := by
  unfold probUpd
  simp only [hsolv, hig, hacc, Bool.false_eq_true, if_false]
  split_ifs <;> rfl

theorem probUpd_fss_acc (s : Submission) (ps : TeamProblemStatistics)
    (q : Problem) (hsolv : ps.isSolved = false)
    (hig : (s.isIgnore || s.isNotCalculatedPenaltyStatus) = false)
    (hacc : s.isAccepted = true) :
    (probUpd s ps q).statistics.firstSolveSubmissions =
      if lastTiesOrEmpty q.statistics.firstSolveSubmissions s then
        q.statistics.firstSolveSubmissions ++ [s]
      else
        q.statistics.firstSolveSubmissions := by
  unfold probUpd
  simp only [hsolv, hig, hacc, Bool.false_eq_true, if_false, if_true]
  simp [firstSolveCond]

/-- Pointwise relation between a list and its image under a map. -/
theorem forall₂_map_self {α : Type} (R : α → α → Prop) (g : α → α)
    (l : List α) (h : ∀ a ∈ l, R a (g a)) : List.Forall₂ R l (l.map g) := by
  induction l with
  | nil => exact List.Forall₂.nil
  | cons x rest ih =>
    exact List.Forall₂.cons (h x (List.mem_cons_self x rest))
      (ih (fun a ha => h a (List.mem_cons_of_mem x ha)))

/-- One replay step updates every problem's first-solve list exactly as one
spec-level `fssFold` step on that problem's flip (if any). -/
theorem stepSub_fss (st : RankState) (solvedF : String → List String)
    (s : Submission) (h : ReplayInv st solvedF) :
    List.Forall₂ (fun p q => q.id = p.id ∧
        q.statistics.firstSolveSubmissions =
          fssFold p.statistics.firstSolveSubmissions
            (if flips (st.teams.map (fun t => t.id)) p.id (solvedF p.id) s
             then [s] else []))
      st.contest.problems (stepSub st s).contest.problems := by
  unfold stepSub
  cases ht : st.teams.find? (fun t => t.id == s.teamId) with
  | none =>
    have hnone : s.teamId ∉ st.teams.map (fun t => t.id) :=
      (find?_key_none_iff (fun t => t.id) st.teams s.teamId).mp ht
    rw [List.forall₂_same]
    intro p _
    refine ⟨rfl, ?_⟩
    rw [if_neg (fun hf => hnone hf.2.1)]
    rfl
  | some team =>
    cases hp : st.contest.problems.find? (fun p => p.id == s.problemId) with
    | none =>
      have hnone : s.problemId ∉ st.contest.problems.map (fun p => p.id) :=
        (find?_key_none_iff (fun p => p.id) st.contest.problems
          s.problemId).mp hp
      rw [List.forall₂_same]
      intro p hpm
      refine ⟨rfl, ?_⟩
      have hflip : ¬ flips (st.teams.map (fun t => t.id)) p.id
          (solvedF p.id) s := by
        intro hf
        refine hnone ?_
        rw [hf.1]
        exact List.mem_map.mpr ⟨p, hpm, rfl⟩
      rw [if_neg hflip]
      rfl
    | some problem =>
      have hteam_mem : team ∈ st.teams := List.mem_of_find?_eq_some ht
      have hteam_id : team.id = s.teamId := by
        have h2 := List.find?_some ht
        exact eq_of_beq h2
      have hprob_mem : problem ∈ st.contest.problems :=
        List.mem_of_find?_eq_some hp
      have hprob_id : problem.id = s.problemId := by
        have h2 := List.find?_some hp
        exact eq_of_beq h2
      have hpid_mem : s.problemId ∈ st.contest.problems.map (fun p => p.id) :=
        List.mem_map.mpr ⟨problem, hprob_mem, hprob_id⟩
      have hstid : s.teamId ∈ st.teams.map (fun t => t.id) :=
        List.mem_map.mpr ⟨team, hteam_mem, hteam_id⟩
      have hflag := h.flags team hteam_mem s.problemId hpid_mem
      apply forall₂_map_self
      intro p hpm
      by_cases hc : (p.id == s.problemId) = true
      · have hpe : p.id = s.problemId := eq_of_beq hc
        simp only [hc, if_true]
        refine ⟨probUpd_id s _ p, ?_⟩
        by_cases hsolv : (psLookup team s.problemId).isSolved = true
        · have hmem : s.teamId ∈ solvedF s.problemId :=
            hteam_id ▸ hflag.mp hsolv
          rw [probUpd_fss_solved s _ p hsolv,
            if_neg (fun hf => hf.2.2.1 (hpe ▸ hmem))]
          rfl
        · have hsolv' : (psLookup team s.problemId).isSolved = false := by
            simpa using hsolv
          have hnmem : s.teamId ∉ solvedF s.problemId := fun hm =>
            hsolv (hflag.mpr (hteam_id ▸ hm))
          by_cases hig : (s.isIgnore || s.isNotCalculatedPenaltyStatus) = true
          · rw [probUpd_fss_ignored s _ p hsolv' hig,
              if_neg (fun hf => by
                have hcontra := hf.2.2.2.1
                rw [hcontra] at hig
                exact Bool.false_ne_true hig)]
            rfl
          · have hig' : (s.isIgnore || s.isNotCalculatedPenaltyStatus) = false := by
              simpa using hig
            by_cases hacc : s.isAccepted = true
            · have hfp : flips (st.teams.map (fun t => t.id)) p.id
                  (solvedF p.id) s := by
                unfold flips
                exact ⟨hpe.symm, hstid, hpe ▸ hnmem, hig', hacc⟩
              rw [probUpd_fss_acc s _ p hsolv' hig' hacc, if_pos hfp]
              rfl
            · have hacc' : s.isAccepted = false := by simpa using hacc
              rw [probUpd_fss_notacc s _ p hsolv' hig' hacc',
                if_neg (fun hf => hacc hf.2.2.2.2)]
              rfl
      · have hc' : (p.id == s.problemId) = false := by simpa using hc
        have hne : p.id ≠ s.problemId := by simpa using hc
        simp only [hc', Bool.false_eq_true, if_false]
        refine ⟨by trivial, ?_⟩
        rw [if_neg (fun hf => hne hf.1.symm)]
        rfl

/-- Composition of two pointwise list relations. -/
theorem forall₂_trans_comp {α β γ : Type} {R1 : α → β → Prop}
    {R2 : β → γ → Prop} {R3 : α → γ → Prop}
    (hcomp : ∀ a b c, R1 a b → R2 b c → R3 a c) :
    ∀ {l1 : List α} {l2 : List β} {l3 : List γ},
      List.Forall₂ R1 l1 l2 → List.Forall₂ R2 l2 l3 →
      List.Forall₂ R3 l1 l3 := by
  intro l1 l2 l3 h12 h23
  induction h12 generalizing l3 with
  | nil =>
    cases h23
    exact List.Forall₂.nil
  | cons hab h12 ih =>
    cases h23 with
    | cons hbc h23 => exact List.Forall₂.cons (hcomp _ _ _ hab hbc) (ih h23)

/-- Right-membership of a pointwise list relation. -/
theorem forall₂_mem_right {α β : Type} {R : α → β → Prop} :
    ∀ {l1 : List α} {l2 : List β}, List.Forall₂ R l1 l2 →
      ∀ b ∈ l2, ∃ a ∈ l1, R a b := by
  intro l1 l2 h
  induction h with
  | nil => intro b hb; exact absurd hb (List.not_mem_nil b)
  | cons hab h ih =>
    intro b hb
    rcases List.mem_cons.mp hb with rfl | hb
    · exact ⟨_, List.mem_cons_self _ _, hab⟩
    · rcases ih b hb with ⟨a, ha, hr⟩
      exact ⟨a, List.mem_cons_of_mem _ ha, hr⟩

/-- The replay fold computes every problem's first-solve list as the
spec-level `fssFold` over its solving submissions. -/
theorem replay_fss :
    ∀ (rest : List Submission) (st : RankState)
      (solvedF : String → List String), ReplayInv st solvedF →
      List.Forall₂ (fun p q => q.id = p.id ∧
          q.statistics.firstSolveSubmissions =
            fssFold p.statistics.firstSolveSubmissions
              (solvingSubs (st.teams.map (fun t => t.id)) p.id rest
                (solvedF p.id)))
        st.contest.problems ((rest.foldl stepSub st).contest.problems) := by
  intro rest
  induction rest with
  | nil =>
    intro st solvedF _
    simp only [List.foldl_nil]
    rw [List.forall₂_same]
    intro p _
    exact ⟨rfl, rfl⟩
  | cons s rest ih =>
    intro st solvedF h
    have hstep := stepSub_fss st solvedF s h
    have hinv := stepSub_inv st solvedF s h
    have hih := ih (stepSub st s)
      (stepSolvedF (st.teams.map (fun t => t.id)) solvedF s) hinv
    rw [(stepSub_ids st s).1] at hih
    simp only [List.foldl_cons]
    refine forall₂_trans_comp ?_ hstep hih
    intro p q r h1 h2
    refine ⟨h2.1.trans h1.1, ?_⟩
    rw [h2.2, h1.1, h1.2]
    unfold stepSolvedF
    simp only [solvingSubs]
    by_cases hf : flips (st.teams.map (fun t => t.id)) p.id (solvedF p.id) s
    · rw [if_pos hf, if_pos hf, if_pos hf]
      rfl
    · rw [if_neg hf, if_neg hf, if_neg hf]
      rfl

/-- A reset team has no solved flags. -/
theorem resetTeam_flag (problems : List Problem) (pen : Nat) (t : Team)
    (pid : String) :
    (psLookup (resetTeam problems pen t) pid).isSolved = false := by
  unfold psLookup resetTeam
  simp only
  cases hf : (problems.map (fun p =>
      { emptyTPS with problemId := p.id, contestPenalty := pen })).find?
      (fun q => q.problemId == pid) with
  | none => rfl
  | some r =>
    have hr := List.mem_of_find?_eq_some hf
    rcases List.mem_map.mp hr with ⟨p, _, rfl⟩
    rfl

/-- The reset state satisfies the replay invariant with empty solved
sets. -/
theorem resetState_inv (st : RankState)
    (htid : (st.teams.map (fun t => t.id)).Nodup)
    (hpid : (st.contest.problems.map (fun p => p.id)).Nodup) :
    ReplayInv (resetState st) (fun _ => []) := by
  have hteams : (resetState st).teams.map (fun t => t.id) =
      st.teams.map (fun t => t.id) := by
    unfold resetState
    simp only
    rw [List.map_map]
    exact List.map_congr_left (fun a _ => rfl)
  have hprobs : (resetState st).contest.problems.map (fun p => p.id) =
      st.contest.problems.map (fun p => p.id) := by
    unfold resetState
    simp only
    rw [List.map_map]
    exact List.map_congr_left (fun a _ => rfl)
  refine ⟨?_, ?_, ?_, ?_⟩
  · rw [hteams]
    exact htid
  · rw [hprobs]
    exact hpid
  · intro t' ht'
    rcases List.mem_map.mp ht' with ⟨t, _, rfl⟩
    rw [hprobs]
    unfold resetTeam
    rw [List.map_map]
    exact List.map_congr_left (fun a _ => rfl)
  · intro t' ht' pid _
    rcases List.mem_map.mp ht' with ⟨t, _, rfl⟩
    constructor
    · intro hsolv
      rw [resetTeam_flag] at hsolv
      exact absurd hsolv Bool.false_ne_true
    · intro hx
      exact absurd hx (List.not_mem_nil _)

/-- The replayed submission list is sorted by timestamp whenever the owned
copy is sorted by the canonical order. -/
theorem getSubmissions_ts_sorted (st : RankState)
    (h : List.Sorted subLE st.submissions) :
    List.Pairwise tsLE (getSubmissions st) := by
  have himp : ∀ a b : Submission, subLE a b → tsLE a b := by
    intro a b hab
    rcases hab with hab | ⟨hab, _⟩
    · exact le_of_lt hab
    · exact le_of_eq hab
  unfold getSubmissions
  by_cases he : st.options.enableFilterSubmissionsByTimestamp = false
  · rw [if_pos he]
    exact h.imp (fun hab => himp _ _ hab)
  · rw [if_neg he]
    exact (List.sorted_insertionSort subLE _).imp (fun hab => himp _ _ hab)

/-- The first-solve fold from the empty list over a sorted solving list
yields exactly the members achieving the minimum timestamp. -/
theorem fssFold_nil_min (sl : List Submission)
    (hs : List.Pairwise tsLE sl) (F : List Submission)
    (hF : F = fssFold [] sl) :
    (∀ s ∈ F, s ∈ sl ∧ ∀ x ∈ sl, s.timestamp ≤ x.timestamp) ∧
    (∀ s ∈ sl, (∀ x ∈ sl, s.timestamp ≤ x.timestamp) → s ∈ F) := by
  cases sl with
  | nil =>
    subst hF
    exact ⟨fun s hs2 => absurd hs2 (List.not_mem_nil s),
      fun s hs2 _ => absurd hs2 (List.not_mem_nil s)⟩
  | cons x sl =>
    have hhead : ∀ y ∈ sl, x.timestamp ≤ y.timestamp :=
      fun y hy => (List.pairwise_cons.mp hs).1 y hy
    have hF' : F = x :: sl.takeWhile (fun y => y.timestamp == x.timestamp) := by
      rw [hF]
      have h1 : fssFold [] (x :: sl) = fssFold [x] sl := rfl
      rw [h1, fssFold_ties x.timestamp sl [x] (List.Pairwise.of_cons hs)
        (by simp) (by simp) hhead]
      rfl
    constructor
    · intro s hsF
      rw [hF'] at hsF
      rcases List.mem_cons.mp hsF with rfl | hsF
      · refine ⟨List.mem_cons_self _ _, ?_⟩
        intro y hy
        rcases List.mem_cons.mp hy with rfl | hy
        · exact le_refl _
        · exact hhead y hy
      · have hmem : s ∈ sl := (List.takeWhile_sublist _).subset hsF
        have hts : s.timestamp = x.timestamp := by
          have h2 := List.mem_takeWhile_imp hsF
          exact eq_of_beq h2
        refine ⟨List.mem_cons_of_mem _ hmem, ?_⟩
        intro y hy
        rw [hts]
        rcases List.mem_cons.mp hy with rfl | hy
        · exact le_refl _
        · exact hhead y hy
    · intro s hsSL hmin
      rcases List.mem_cons.mp hsSL with rfl | hs2
      · rw [hF']
        exact List.mem_cons_self _ _
      · have hts : s.timestamp = x.timestamp :=
          le_antisymm (hmin x (List.mem_cons_self _ _)) (hhead s hs2)
        rw [hF']
        exact List.mem_cons_of_mem _
          (mem_takeWhile_ties x.timestamp sl (List.Pairwise.of_cons hs)
            hhead s hs2 hts)

/-- C3: after `buildRank`, a problem's first-solve list holds exactly the
solving submissions (counted, non-ignored accepted submissions by known
teams that had not yet solved the problem) whose timestamp achieves the
earliest solving timestamp of that problem among the replayed submissions:
every list entry is such a minimal solving submission, and every minimal
solving submission is in the list.  Hypotheses are the constructor sort
invariant and the unique-id roster invariants. -/
theorem claim_C3 (st : RankState)
    (hsorted : List.Sorted subLE st.submissions)
    (htid : (st.teams.map (fun t => t.id)).Nodup)
    (hpid : (st.contest.problems.map (fun p => p.id)).Nodup) :
    ∀ p ∈ (buildRank st).contest.problems,
      (∀ s ∈ p.statistics.firstSolveSubmissions,
        s ∈ solvingSubs (st.teams.map (fun t => t.id)) p.id
            (getSubmissions st) [] ∧
        ∀ x ∈ solvingSubs (st.teams.map (fun t => t.id)) p.id
            (getSubmissions st) [],
          s.timestamp ≤ x.timestamp) ∧
      (∀ s ∈ solvingSubs (st.teams.map (fun t => t.id)) p.id
          (getSubmissions st) [],
        (∀ x ∈ solvingSubs (st.teams.map (fun t => t.id)) p.id
            (getSubmissions st) [], s.timestamp ≤ x.timestamp) →
        s ∈ p.statistics.firstSolveSubmissions) := by
  intro p hp
  have hinv := resetState_inv st htid hpid
  have hfor := replay_fss (getSubmissions (resetState st)) (resetState st)
    (fun _ => []) hinv
  have htids : (resetState st).teams.map (fun t => t.id) =
      st.teams.map (fun t => t.id) := by
    unfold resetState
    simp only
    rw [List.map_map]
    exact List.map_congr_left (fun a _ => rfl)
  have hgs : getSubmissions (resetState st) = getSubmissions st := rfl
  rw [htids, hgs] at hfor
  have hpb : (buildRank st).contest.problems =
      ((getSubmissions st).foldl stepSub (resetState st)).contest.problems :=
    rfl
  rw [hpb] at hp
  rcases forall₂_mem_right hfor p hp with ⟨p0, hp0, hid, hfss⟩
  have hp0fss : p0.statistics.firstSolveSubmissions = [] := by
    rcases List.mem_map.mp hp0 with ⟨p1, _, rfl⟩
    rfl
  rw [hp0fss] at hfss
  rw [hid]
  exact fssFold_nil_min _
    (List.Pairwise.sublist (solvingSubs_sublist _ _ _ _)
      (getSubmissions_ts_sorted st hsorted)) _ hfss

theorem claim_C3_witness :
    (∀ s ∈ ((buildRank exState).contest.problems.get
        ⟨0, by decide⟩).statistics.firstSolveSubmissions,
      s ∈ solvingSubs (exState.teams.map (fun t => t.id))
          ((buildRank exState).contest.problems.get ⟨0, by decide⟩).id
          (getSubmissions exState) [] ∧
      ∀ x ∈ solvingSubs (exState.teams.map (fun t => t.id))
          ((buildRank exState).contest.problems.get ⟨0, by decide⟩).id
          (getSubmissions exState) [],
        s.timestamp ≤ x.timestamp) ∧
    (∀ s ∈ solvingSubs (exState.teams.map (fun t => t.id))
        ((buildRank exState).contest.problems.get ⟨0, by decide⟩).id
        (getSubmissions exState) [],
      (∀ x ∈ solvingSubs (exState.teams.map (fun t => t.id))
          ((buildRank exState).contest.problems.get ⟨0, by decide⟩).id
          (getSubmissions exState) [], s.timestamp ≤ x.timestamp) →
      s ∈ ((buildRank exState).contest.problems.get
        ⟨0, by decide⟩).statistics.firstSolveSubmissions) :=
  claim_C3 exState (by decide) (by decide) (by decide)
    ((buildRank exState).contest.problems.get ⟨0, by decide⟩)
    (List.get_mem _ 0 (by decide))

/-! ### C1: idempotence of `buildRank`.  The replay fold is decomposed
into an elementwise evolution of each team (`TE`) driven by a canonical
global state: a team-lookup function and the evolving problem list. -/

/-- The id-keyed team lookup (`teamsMap`). -/
def lookupF (teams : List Team) : String → Option Team :=
  fun a => teams.find? (fun t => t.id == a)

/-- One team's update for one replayed submission, given the canonical
global pre-state. -/
def teamStep (s : Submission) (F : String → Option Team)
    (probs : List Problem) (u : Team) : Team :=
  match F s.teamId, probs.find? (fun p => p.id == s.problemId) with
  | some _, some problem =>
    if u.id == s.teamId then teamUpd s problem.statistics u else u
  | _, _ => u

/-- The canonical problem-list update for one replayed submission. -/
def canonProbs (s : Submission) (F : String → Option Team)
    (probs : List Problem) : List Problem :=
  match F s.teamId, probs.find? (fun p => p.id == s.problemId) with
  | some team, some _ =>
    probs.map (fun q =>
      if q.id == s.problemId then probUpd s (psLookup team s.problemId) q
      else q)
  | _, _ => probs

/-- The canonical lookup-function update for one replayed submission. -/
def canonF (s : Submission) (F : String → Option Team)
    (probs : List Problem) : String → Option Team :=
  fun a => Option.map (teamStep s F probs) (F a)

/-- One team's evolution along a replayed submission list. -/
def TE : List Submission → (String → Option Team) → List Problem →
    Team → Team
  | [], _, _, u => u
  | s :: rest, F, probs, u =>
    TE rest (canonF s F probs) (canonProbs s F probs) (teamStep s F probs u)

/-- The canonical problem-list evolution along a replayed submission
list. -/
def PEvo : List Submission → (String → Option Team) → List Problem →
    List Problem
  | [], _, probs => probs
  | s :: rest, F, probs =>
    PEvo rest (canonF s F probs) (canonProbs s F probs)

/-- One replay step in canonical form. -/
theorem stepSub_canon (st : RankState) (s : Submission) :
    (stepSub st s).teams =
      st.teams.map (teamStep s (lookupF st.teams) st.contest.problems) ∧
    (stepSub st s).contest.problems =
      canonProbs s (lookupF st.teams) st.contest.problems ∧
    lookupF ((stepSub st s).teams) =
      canonF s (lookupF st.teams) st.contest.problems := by
  have hskip : ∀ (h1 : st.teams.find? (fun t => t.id == s.teamId) = none ∨
      st.contest.problems.find? (fun p => p.id == s.problemId) = none),
      st.teams.map (teamStep s (lookupF st.teams) st.contest.problems) =
        st.teams := by
    intro h1
    rw [show st.teams.map (teamStep s (lookupF st.teams) st.contest.problems) =
        st.teams.map (fun u => u) from
      List.map_congr_left (fun u _ => by
        rcases h1 with h1 | h1 <;> simp [teamStep, lookupF, h1])]
    exact List.map_id' st.teams
  cases ht : st.teams.find? (fun t => t.id == s.teamId) with
  | none =>
    refine ⟨?_, ?_, ?_⟩
    · simp only [stepSub, ht]
      cases hp : st.contest.problems.find? (fun p => p.id == s.problemId) <;>
        exact (hskip (Or.inl ht)).symm
    · simp only [stepSub, canonProbs, lookupF, ht]
    · funext a
      simp only [stepSub, canonF, lookupF, ht]
      cases hfa : st.teams.find? (fun t => t.id == a) with
      | none => simp [hfa]
      | some v => simp [hfa, teamStep, lookupF, ht]
  | some team =>
    cases hp : st.contest.problems.find? (fun p => p.id == s.problemId) with
    | none =>
      refine ⟨?_, ?_, ?_⟩
      · simp only [stepSub, ht, hp]
        exact (hskip (Or.inr hp)).symm
      · simp only [stepSub, canonProbs, lookupF, ht, hp]
      · funext a
        simp only [stepSub, canonF, lookupF, ht, hp]
        cases hfa : st.teams.find? (fun t => t.id == a) with
        | none => simp [hfa]
        | some v => simp [hfa, teamStep, lookupF, ht, hp]
    | some problem =>
      refine ⟨?_, ?_, ?_⟩
      · simp only [stepSub, ht, hp]
        exact List.map_congr_left (fun u _ => by
          simp [teamStep, lookupF, ht, hp])
      · simp only [stepSub, canonProbs, lookupF, ht, hp]
      · funext a
        simp only [stepSub, canonF, lookupF, ht, hp]
        rw [find?_map_pred (fun t => t.id == a)
          (fun u => if u.id == s.teamId then teamUpd s problem.statistics u
            else u)
          (fun u => by
            by_cases hc : (u.id == s.teamId) = true <;>
              simp [hc, teamUpd_id])]
        cases hfa : st.teams.find? (fun t => t.id == a) with
        | none => rfl
        | some v => simp [teamStep, lookupF, ht, hp]

/-- The replay fold in canonical form: teams evolve elementwise via `TE`;
problems evolve via `PEvo`. -/
theorem foldl_canon :
    ∀ (l : List Submission) (st : RankState),
      (l.foldl stepSub st).teams =
        st.teams.map (TE l (lookupF st.teams) st.contest.problems) ∧
      (l.foldl stepSub st).contest.problems =
        PEvo l (lookupF st.teams) st.contest.problems := by
  intro l
  induction l with
  | nil =>
    intro st
    exact ⟨(List.map_id' st.teams).symm, rfl⟩
  | cons s rest ih =>
    intro st
    have hc := stepSub_canon st s
    have hih := ih (stepSub st s)
    rw [hc.2.2, hc.1, hc.2.1] at hih
    simp only [List.foldl_cons]
    rw [hih.1, hih.2, List.map_map]
    exact ⟨rfl, rfl⟩

/-- The replay step keeps everything outside `teams` and
`contest.problems` unchanged. -/
theorem stepSub_shape (st : RankState) (s : Submission) :
    ∃ tp pp, stepSub st s =
      { st with teams := tp, contest := { st.contest with problems := pp } } := by
  unfold stepSub
  cases ht : st.teams.find? (fun t => t.id == s.teamId) with
  | none => exact ⟨st.teams, st.contest.problems, rfl⟩
  | some team =>
    cases hp : st.contest.problems.find? (fun p => p.id == s.problemId) with
    | none => exact ⟨st.teams, st.contest.problems, rfl⟩
    | some problem => exact ⟨_, _, rfl⟩

theorem foldl_shape :
    ∀ (l : List Submission) (st : RankState),
      ∃ tp pp, l.foldl stepSub st =
        { st with
          teams := tp
          contest := { st.contest with problems := pp } } := by
  intro l
  induction l with
  | nil => intro st; exact ⟨st.teams, st.contest.problems, rfl⟩
  | cons s rest ih =>
    intro st
    rcases stepSub_shape st s with ⟨tp1, pp1, h1⟩
    rcases ih (stepSub st s) with ⟨tp2, pp2, h2⟩
    refine ⟨tp2, pp2, ?_⟩
    simp only [List.foldl_cons]
    rw [h2, h1]

/-- On team lists with unique ids, the lookup function is invariant under
permutation. -/
theorem lookupF_eq_of_perm (l1 l2 : List Team) (h : l1.Perm l2)
    (hn : (l1.map (fun t => t.id)).Nodup) : lookupF l1 = lookupF l2 := by
  funext a
  unfold lookupF
  cases hf1 : l1.find? (fun t => t.id == a) with
  | none =>
    have h1 := List.find?_eq_none.mp hf1
    cases hf2 : l2.find? (fun t => t.id == a) with
    | none => rfl
    | some t =>
      have hmem : t ∈ l1 := h.symm.subset (List.mem_of_find?_eq_some hf2)
      exact absurd (List.find?_some hf2) (h1 t hmem)
  | some t =>
    have hmem1 : t ∈ l1 := List.mem_of_find?_eq_some hf1
    have hkey1 := List.find?_some hf1
    have hsome2 : ∃ y, l2.find? (fun t => t.id == a) = some y :=
      Option.isSome_iff_exists.mp (List.find?_isSome.mpr
        ⟨t, h.subset hmem1, hkey1⟩)
    rcases hsome2 with ⟨y, hy⟩
    have hmemy : y ∈ l1 := h.symm.subset (List.mem_of_find?_eq_some hy)
    have hkeyy := List.find?_some hy
    have : t = y := List.inj_on_of_nodup_map hn hmem1 hmemy
      ((eq_of_beq hkey1).trans (eq_of_beq hkeyy).symm)
    rw [hy, this]

theorem teamUpd_organization (s : Submission) (pstats : ProblemStatistics)
    (u : Team) : (teamUpd s pstats u).organization = u.organization := rfl

theorem teamStep_id (s : Submission) (F : String → Option Team)
    (probs : List Problem) (u : Team) : (teamStep s F probs u).id = u.id := by
  unfold teamStep
  cases F s.teamId with
  | none => rfl
  | some t =>
    cases probs.find? (fun p => p.id == s.problemId) with
    | none => rfl
    | some p =>
      by_cases hc : (u.id == s.teamId) = true <;> simp [hc, teamUpd_id]

theorem teamStep_org (s : Submission) (F : String → Option Team)
    (probs : List Problem) (u : Team) :
    (teamStep s F probs u).organization = u.organization := by
  unfold teamStep
  cases F s.teamId with
  | none => rfl
  | some t =>
    cases probs.find? (fun p => p.id == s.problemId) with
    | none => rfl
    | some p =>
      by_cases hc : (u.id == s.teamId) = true <;>
        simp [hc, teamUpd_organization]

theorem TE_id : ∀ (l : List Submission) (F : String → Option Team)
    (probs : List Problem) (u : Team), (TE l F probs u).id = u.id := by
  intro l
  induction l with
  | nil => intro F probs u; rfl
  | cons s rest ih =>
    intro F probs u
    unfold TE
    rw [ih, teamStep_id]

theorem TE_org : ∀ (l : List Submission) (F : String → Option Team)
    (probs : List Problem) (u : Team),
    (TE l F probs u).organization = u.organization := by
  intro l
  induction l with
  | nil => intro F probs u; rfl
  | cons s rest ih =>
    intro F probs u
    unfold TE
    rw [ih, teamStep_org]

theorem calcSolvedData_id (t : Team) : (calcSolvedData t).id = t.id := rfl

theorem calcSolvedData_org (t : Team) :
    (calcSolvedData t).organization = t.organization := rfl

/-- `resetTeam` reads only the team's id and organization. -/
theorem resetTeam_congr_team (problems : List Problem) (pen : Nat)
    (u v : Team) (hid : u.id = v.id) (horg : u.organization = v.organization) :
    resetTeam problems pen u = resetTeam problems pen v := by
  unfold resetTeam
  rw [hid, horg]

/-- `resetTeam` reads the problem list only through its ids. -/
theorem resetTeam_congr_problems (P1 P2 : List Problem) (pen : Nat)
    (hids : P1.map (fun p => p.id) = P2.map (fun p => p.id)) (u : Team) :
    resetTeam P1 pen u = resetTeam P2 pen u := by
  have h1 : ∀ P : List Problem,
      P.map (fun p => { emptyTPS with problemId := p.id, contestPenalty := pen }) =
      (P.map (fun p => p.id)).map
        (fun i => { emptyTPS with problemId := i, contestPenalty := pen }) := by
    intro P
    rw [List.map_map]
    exact List.map_congr_left (fun a _ => rfl)
  unfold resetTeam
  rw [h1 P1, h1 P2, hids]

/-- `resetProblem` over a list depends only on the ids. -/
theorem resetProblem_congr (P1 P2 : List Problem)
    (hids : P1.map (fun p => p.id) = P2.map (fun p => p.id)) :
    P1.map resetProblem = P2.map resetProblem := by
  have h1 : ∀ P : List Problem,
      P.map resetProblem =
        (P.map (fun p => p.id)).map (fun i => ⟨i, emptyProblemStatistics⟩) := by
    intro P
    rw [List.map_map]
    exact List.map_congr_left (fun a _ => rfl)
  rw [h1 P1, h1 P2, hids]

theorem assignStep_id (pos : Nat) (prev : Option Team) (t : Team) :
    (assignStep pos prev t).id = t.id := by
  unfold assignStep
  cases prev with
  | none => rfl
  | some pt =>
    by_cases hc : isEqualRank { t with rank := pos } pt = true <;> simp [hc]

theorem assignStep_org (pos : Nat) (prev : Option Team) (t : Team) :
    (assignStep pos prev t).organization = t.organization := by
  unfold assignStep
  cases prev with
  | none => rfl
  | some pt =>
    by_cases hc : isEqualRank { t with rank := pos } pt = true <;> simp [hc]

theorem assignRanksGo_map_reset (problems : List Problem) (pen : Nat) :
    ∀ (l : List Team) (pos : Nat) (prev : Option Team),
      (assignRanksGo pos prev l).map (resetTeam problems pen) =
        l.map (resetTeam problems pen) := by
  intro l
  induction l with
  | nil => intro pos prev; rfl
  | cons t rest ih =>
    intro pos prev
    simp only [assignRanksGo, List.map_cons]
    rw [ih, resetTeam_congr_team problems pen _ t
      (assignStep_id pos prev t) (assignStep_org pos prev t)]

theorem assignOrgRanksGo_map_reset (problems : List Problem) (pen : Nat) :
    ∀ (l : List Team) (pos : Nat) (prev : Option Team) (seen : List String),
      (assignOrgRanksGo pos prev seen l).map (resetTeam problems pen) =
        l.map (resetTeam problems pen) := by
  intro l
  induction l with
  | nil => intro pos prev seen; rfl
  | cons t rest ih =>
    intro pos prev seen
    unfold assignOrgRanksGo
    by_cases hc : t.organization ∈ seen
    · rw [if_pos hc]
      simp only [List.map_cons]
      rw [ih]
    · rw [if_neg hc]
      simp only [List.map_cons]
      rw [ih]
      congr 1
      cases prev with
      | none => rfl
      | some pt =>
        by_cases he : isEqualRank { t with organizationRank := pos } pt = true <;>
          simp [he] <;> exact resetTeam_congr_team problems pen _ t rfl rfl

/-- `getSubmissions` reads only the owned submissions and the options. -/
theorem getSubmissions_congr (st1 st2 : RankState)
    (ho : st1.options = st2.options)
    (hs : st1.submissions = st2.submissions) :
    getSubmissions st1 = getSubmissions st2 := by
  unfold getSubmissions
  rw [ho, hs]

/-- `buildRank` in explicit normal form: the replay in canonical form, the
sorted/ranked team list, the unchanged submissions and options. -/
theorem buildRank_explicit (st : RankState) :
    ∃ S A,
      S = List.insertionSort teamLE
        ((resetState st).teams.map (fun u => calcSolvedData
          (TE (getSubmissions (resetState st)) (lookupF (resetState st).teams)
            ((resetState st).contest.problems) u))) ∧
      A = (if st.contest.organization = true then
            assignOrgRanks (assignRanks S)
          else assignRanks S) ∧
      buildRank st =
        { contest := { st.contest with problems :=
            (PEvo (getSubmissions (resetState st))
              (lookupF (resetState st).teams)
              ((resetState st).contest.problems)) }
          teams := A
          submissions := st.submissions
          rankStatistics := buildHistogram st.contest.problems.length A
          options := st.options } := by
  refine ⟨_, _, rfl, rfl, ?_⟩
  unfold buildRank
  rcases foldl_shape (getSubmissions (resetState st)) (resetState st) with
    ⟨tp, pp, hs⟩
  have hcanon := foldl_canon (getSubmissions (resetState st)) (resetState st)
  have hteams := hcanon.1
  have hprobs := hcanon.2
  rw [hs] at hteams hprobs
  dsimp only at hteams hprobs
  dsimp only
  rw [hs]
  dsimp only
  rw [hteams, hprobs, List.map_map]
  rfl

/-- One team's end-to-end per-build evolution: reset, replay, aggregate. -/
def bigG (subs : List Submission) (F : String → Option Team)
    (probs : List Problem) (P : List Problem) (pen : Nat) (x : Team) : Team :=
  calcSolvedData (TE subs F probs (resetTeam P pen x))

theorem bigG_id (subs : List Submission) (F : String → Option Team)
    (probs : List Problem) (P : List Problem) (pen : Nat) (x : Team) :
    (bigG subs F probs P pen x).id = x.id := by
  unfold bigG
  rw [calcSolvedData_id, TE_id]
  rfl

theorem bigG_org (subs : List Submission) (F : String → Option Team)
    (probs : List Problem) (P : List Problem) (pen : Nat) (x : Team) :
    (bigG subs F probs P pen x).organization = x.organization := by
  unfold bigG
  rw [calcSolvedData_org, TE_org]
  rfl

/-- The per-build team evolution depends only on the team's identity, so it
is a fixpoint operator. -/
theorem bigG_fix (subs : List Submission) (F : String → Option Team)
    (probs : List Problem) (P : List Problem) (pen : Nat) (x : Team) :
    bigG subs F probs P pen (bigG subs F probs P pen x) =
      bigG subs F probs P pen x := by
  show calcSolvedData (TE subs F probs
    (resetTeam P pen (bigG subs F probs P pen x))) = _
  rw [resetTeam_congr_team P pen _ x (bigG_id subs F probs P pen x)
    (bigG_org subs F probs P pen x)]
  rfl

/-- C1: `buildRank` is idempotent — running it a second time on unchanged
inputs and options reproduces the exact same state (team ranks,
per-problem statistics, problem statistics, histogram, submission lists).
The function value is the updated instance itself, as in the source.  The
hypothesis is the roster invariant of unique team ids. -/
theorem claim_C1 (st : RankState)
    (htid : (st.teams.map (fun t => t.id)).Nodup) :
    buildRank (buildRank st) = buildRank st := by
  obtain ⟨S, A, hS, hA, hB⟩ := buildRank_explicit st
  obtain ⟨S2, A2, hS2, hA2, hB2⟩ := buildRank_explicit (buildRank st)
  have hBteams : (buildRank st).teams = A := by rw [hB]
  have hBprobs : (buildRank st).contest.problems =
      PEvo (getSubmissions (resetState st)) (lookupF (resetState st).teams)
        ((resetState st).contest.problems) := by rw [hB]
  have hBopts : (buildRank st).options = st.options := by rw [hB]
  have hBsubs : (buildRank st).submissions = st.submissions := by rw [hB]
  have hBorg : (buildRank st).contest.organization =
      st.contest.organization := by rw [hB]
  have hBpen : (buildRank st).contest.penalty = st.contest.penalty := by
    rw [hB]
  have hP0_ids : ((resetState st).contest.problems).map (fun p => p.id) =
      st.contest.problems.map (fun p => p.id) := by
    show ((st.contest.problems.map resetProblem).map (fun p => p.id)) = _
    rw [List.map_map]
    exact List.map_congr_left (fun a _ => rfl)
  have hPc_ids : (PEvo (getSubmissions (resetState st))
      (lookupF (resetState st).teams)
      ((resetState st).contest.problems)).map (fun p => p.id) =
      st.contest.problems.map (fun p => p.id) := by
    have h1 := (foldl_stepSub_ids (getSubmissions (resetState st))
      (resetState st)).2
    have h2 := (foldl_canon (getSubmissions (resetState st))
      (resetState st)).2
    rw [h2] at h1
    rw [h1]
    exact hP0_ids
  have hPc_len : (PEvo (getSubmissions (resetState st))
      (lookupF (resetState st).teams)
      ((resetState st).contest.problems)).length =
      st.contest.problems.length := by
    have h3 := congrArg List.length hPc_ids
    simpa using h3
  have hSG : S = List.insertionSort teamLE
      (st.teams.map (bigG (getSubmissions (resetState st))
        (lookupF (resetState st).teams) ((resetState st).contest.problems)
        st.contest.problems st.contest.penalty)) := by
    rw [hS]
    congr 1
    show (st.teams.map (resetTeam st.contest.problems st.contest.penalty)).map
      _ = _
    rw [List.map_map]
    exact List.map_congr_left (fun a _ => rfl)
  have hSsorted : List.Sorted teamLE S := by
    rw [hS]
    exact List.sorted_insertionSort teamLE _
  have hSfix : ∀ y ∈ S, bigG (getSubmissions (resetState st))
      (lookupF (resetState st).teams) ((resetState st).contest.problems)
      st.contest.problems st.contest.penalty y = y := by
    intro y hy
    rw [hSG] at hy
    have hyC := (List.perm_insertionSort teamLE _).subset hy
    rcases List.mem_map.mp hyC with ⟨x, _, rfl⟩
    exact bigG_fix _ _ _ _ _ x
  have hR1 : (resetState (buildRank st)).teams =
      A.map (resetTeam (PEvo (getSubmissions (resetState st))
        (lookupF (resetState st).teams) ((resetState st).contest.problems))
        st.contest.penalty) := by
    show (buildRank st).teams.map (resetTeam (buildRank st).contest.problems
      (buildRank st).contest.penalty) = _
    rw [hBteams, hBprobs, hBpen]
  have hR1b : A.map (resetTeam (PEvo (getSubmissions (resetState st))
      (lookupF (resetState st).teams) ((resetState st).contest.problems))
      st.contest.penalty) =
      A.map (resetTeam st.contest.problems st.contest.penalty) :=
    List.map_congr_left (fun u _ =>
      resetTeam_congr_problems _ _ _ hPc_ids u)
  have hR1c : A.map (resetTeam st.contest.problems st.contest.penalty) =
      S.map (resetTeam st.contest.problems st.contest.penalty) := by
    rw [hA]
    by_cases ho : st.contest.organization = true
    · rw [if_pos ho]
      unfold assignOrgRanks assignRanks
      rw [assignOrgRanksGo_map_reset, assignRanksGo_map_reset]
    · rw [if_neg ho]
      unfold assignRanks
      rw [assignRanksGo_map_reset]
  have hmapfix : (st.teams.map (bigG (getSubmissions (resetState st))
      (lookupF (resetState st).teams) ((resetState st).contest.problems)
      st.contest.problems st.contest.penalty)).map
      (resetTeam st.contest.problems st.contest.penalty) =
      st.teams.map (resetTeam st.contest.problems st.contest.penalty) := by
    rw [List.map_map]
    exact List.map_congr_left (fun x _ =>
      resetTeam_congr_team _ _ _ x (bigG_id _ _ _ _ _ x)
        (bigG_org _ _ _ _ _ x))
  have hperm : (S.map (resetTeam st.contest.problems st.contest.penalty)).Perm
      (st.teams.map (resetTeam st.contest.problems st.contest.penalty)) := by
    rw [← hmapfix]
    exact List.Perm.map _ (by rw [hSG]; exact List.perm_insertionSort _ _)
  have hSids_nodup : ((S.map (resetTeam st.contest.problems
      st.contest.penalty)).map (fun t => t.id)).Nodup := by
    have h1 : (S.map (resetTeam st.contest.problems
        st.contest.penalty)).map (fun t => t.id) = S.map (fun t => t.id) := by
      rw [List.map_map]
      exact List.map_congr_left (fun a _ => rfl)
    have h2 : (S.map (fun t => t.id)).Perm (st.teams.map (fun t => t.id)) := by
      have h3 : S.Perm (st.teams.map (bigG (getSubmissions (resetState st))
          (lookupF (resetState st).teams)
          ((resetState st).contest.problems)
          st.contest.problems st.contest.penalty)) := by
        rw [hSG]
        exact List.perm_insertionSort _ _
      have h4 := List.Perm.map (fun t => t.id) h3
      rw [List.map_map] at h4
      rw [show st.teams.map ((fun t => t.id) ∘ bigG (getSubmissions
          (resetState st)) (lookupF (resetState st).teams)
          ((resetState st).contest.problems)
          st.contest.problems st.contest.penalty) =
          st.teams.map (fun t => t.id) from
        List.map_congr_left (fun a _ => bigG_id _ _ _ _ _ a)] at h4
      exact h4
    rw [h1]
    exact (h2.nodup_iff).mpr htid
  have hlook : lookupF (resetState (buildRank st)).teams =
      lookupF (resetState st).teams := by
    rw [hR1, hR1b, hR1c]
    have hRT : (resetState st).teams =
        st.teams.map (resetTeam st.contest.problems st.contest.penalty) := rfl
    rw [hRT]
    exact lookupF_eq_of_perm _ _ hperm hSids_nodup
  have hP1 : (resetState (buildRank st)).contest.problems =
      (resetState st).contest.problems := by
    show (buildRank st).contest.problems.map resetProblem = _
    rw [hBprobs]
    exact resetProblem_congr _ _ hPc_ids
  have hsubs : getSubmissions (resetState (buildRank st)) =
      getSubmissions (resetState st) :=
    getSubmissions_congr _ _ hBopts hBsubs
  have hS2S : S2 = S := by
    rw [hS2, hsubs, hlook, hP1, hR1, hR1b, hR1c]
    have h5 : (S.map (resetTeam st.contest.problems
        st.contest.penalty)).map (fun u => calcSolvedData
        (TE (getSubmissions (resetState st)) (lookupF (resetState st).teams)
          ((resetState st).contest.problems) u)) =
        S.map (bigG (getSubmissions (resetState st))
          (lookupF (resetState st).teams) ((resetState st).contest.problems)
          st.contest.problems st.contest.penalty) := by
      rw [List.map_map]
      exact List.map_congr_left (fun a _ => rfl)
    rw [h5, List.map_congr_left hSfix, List.map_id' S]
    exact hSsorted.insertionSort_eq
  have hA2A : A2 = A := by
    rw [hA2, hS2S, hBorg, hA]
  rw [hB2, hA2A, hsubs, hlook, hP1, hBprobs, hPc_len, hBopts, hBsubs]
  rw [hB]

theorem claim_C1_witness :
    buildRank (buildRank exState) = buildRank exState :=
  claim_C1 exState (by decide)

end XCPCIO
